import Mathlib

/-!
Verification of the HPA config recommender
(`cost-optimization/hpa-config-recommender/src/hpaconfigrecommender`).

The Python source is shallowly embedded over `ℚ`:
* pandas/numpy float arithmetic becomes exact rational arithmetic
  (counterexample inputs below only use values exactly representable in the
  source's float16/float32 columns, so `convert_data_types` is the identity
  on them and is modelled as such);
* `round(x, d)` is modelled with Mathlib's `round` (half-up); every concrete
  input below is chosen away from rounding ties so the half-even/half-up
  difference never matters;
* a Python exception (`raise ValueError`) and the early `return
  pd.DataFrame()` of an invalidated simulation are modelled with `Option`;
* the trace (`workload_df`) is a `List TraceRow` assumed in time order, as
  guaranteed by the trace normalizer (`read_workload_timeseries`), so the
  order-preserving `sort_values('window_begin')` of `_calculate_savings` is
  the identity on it;
* pandas division by zero yields `inf`/`NaN`; where a claim touches such a
  path the embedding keeps the verdict of the Python code (see
  `min_pos_div`, which models the fact that `(1-b)/0 = inf` never wins a
  minimum and that an all-`inf` minimum fails the target range check).
-/

set_option allowUnsafeReducibility true
attribute [semireducible] Rat.mul Rat.add Rat.sub Rat.inv Rat.ofScientific

namespace HpaRec

/-! ### Numeric helpers -/

/-- `round(x, d)` of Python/numpy on a rational, `d` decimal digits. -/
def roundTo (d : ℕ) (x : ℚ) : ℚ := ((round (x * 10 ^ d) : ℤ) : ℚ) / 10 ^ d

/-- `round(x, 2)`. -/
def round2 (x : ℚ) : ℚ := roundTo 2 x

/-- `round(x, 3)`. -/
def round3 (x : ℚ) : ℚ := roundTo 3 x

/-- `np.ceil` on a rational, value kept rational (`np.ceil` returns a float). -/
def ceilQ (x : ℚ) : ℚ := ((⌈x⌉ : ℤ) : ℚ)

/-- `int(np.ceil(x))`. -/
def ceilZ (x : ℚ) : ℤ := ⌈x⌉

/-- Python `int(x)`: truncation toward zero. -/
def truncZ (x : ℚ) : ℤ := x.num / (x.den : ℤ)

/-- `np.clip(x, lo, hi)` = `min(hi, max(x, lo))`. -/
def clipZ (x lo hi : ℤ) : ℤ := min hi (max x lo)

/-- Maximum of a rational column (`Series.max()`); 0 on the empty list, which
is only ever used on nonempty data. -/
def listMaxQ : List ℚ → ℚ
  | [] => 0
  | h :: t => t.foldl max h

/-- Minimum of a rational column (`Series.min()`). -/
def listMinQ : List ℚ → ℚ
  | [] => 0
  | h :: t => t.foldl min h

/-- Maximum of an integer column. -/
def listMaxZ : List ℤ → ℤ
  | [] => 0
  | h :: t => t.foldl max h

/-- Minimum of an integer column. -/
def listMinZ : List ℤ → ℤ
  | [] => 0
  | h :: t => t.foldl min h

/-- `Series.mean()`. -/
def meanQ (l : List ℚ) : ℚ := l.sum / (l.length : ℚ)

/-- Insert into a sorted list, before the first element it is `le` to;
descending past equal elements keeps the sort stable, like Python's
`sorted`. -/
def insertLE {α : Type} (le : α → α → Bool) (a : α) : List α → List α
  | [] => [a]
  | h :: t => if le a h then a :: h :: t else h :: insertLE le a t

/-- Stable insertion sort (the embedding's executable stand-in for
`sorted` / the sort inside `quantile`). -/
def sortLE {α : Type} (le : α → α → Bool) : List α → List α
  | [] => []
  | h :: t => insertLE le h (sortLE le t)

/-! Method labels are modelled as `List Char` (a Python `str` compares by
code points, which is exactly lexicographic `List Char` comparison). -/

/-- Decimal digits of a natural number, with explicit fuel so that the
kernel can evaluate it. -/
def natCharsAux : ℕ → ℕ → List Char
  | 0, _ => []
  | fuel + 1, n =>
    if n < 10 then [Nat.digitChar n]
    else natCharsAux fuel (n / 10) ++ [Nat.digitChar (n % 10)]

/-- Python `str` of a natural number. -/
def natChars (n : ℕ) : List Char := natCharsAux (n + 1) n

/-- Python `str` of an integer. -/
def intChars (k : ℤ) : List Char :=
  if k < 0 then [Char.ofNat 45] ++ natChars (-k).toNat else natChars k.toNat

/-- Python string `<`: lexicographic comparison by code point. -/
def charsLT : List Char → List Char → Bool
  | [], [] => false
  | [], _ :: _ => true
  | _ :: _, [] => false
  | a :: as, b :: bs =>
    if a < b then true else if b < a then false else charsLT as bs

/-- The label `'VPA'`. -/
def methodVPA : List Char := ['V', 'P', 'A']

/-- The label `f'DCR-{p}'`. -/
def methodDCR (p : ℕ) : List Char := ['D', 'C', 'R', '-'] ++ natChars p

/-- The label `f'DMR_mean-loop_{min_replicas}'`. -/
def methodDMR (k : ℤ) : List Char :=
  ['D', 'M', 'R', '_', 'm', 'e', 'a', 'n', '-', 'l', 'o', 'o', 'p', '_'] ++
    intChars k

/-- Linear-interpolation quantile, the default of `Series.quantile` and
`np.percentile`: on the sorted values `s` of length `n`, position
`h = q*(n-1)`, result `s[⌊h⌋] + (h-⌊h⌋)*(s[⌊h⌋+1] - s[⌊h⌋])`. -/
def quantileLinear (l : List ℚ) (q : ℚ) : ℚ :=
  let s := sortLE (fun a b => decide (a ≤ b)) l
  let n := s.length
  let h : ℚ := q * ((n : ℚ) - 1)
  let lo : ℕ := (⌊h⌋).toNat
  let v0 := s.getD lo 0
  let v1 := s.getD (lo + 1) v0
  v0 + (h - ((⌊h⌋ : ℤ) : ℚ)) * (v1 - v0)

/-! ### Configuration and data model (`utils/config.py`, `utils/models.py`) -/

/-- The tunables of `Config` that the verified components read. -/
structure Config where
  HPA_SCALE_LIMIT : ℚ
  HPA_TARGET_BUFFER : ℚ
  HPA_SCALE_DOWN_DEFAULT_BEHAVIOUR_STEPS : ℕ
  EXTRA_HPA_BUFFER_FOR_MAX_REPLICAS : ℚ
  EXTRA_HPA_BUFFER_FOR_MEMORY_RECOMMENDATION : ℚ
  EXTRA_HPA_BUFFER_FOR_CPU_USAGE_CAPACITY : ℚ
  EXTRA_VPA_BUFFER_FOR_MEMORY_RECOMMENDATION : ℚ
  MIN_CPU_CORE_PROPOSED_VALUE : ℚ
  COST_OF_GB_IN_CPUS : ℚ
  MCPU_ROUNDING : ℕ
  MIN_HPA_TARGET_CPU : ℚ
  MAX_HPA_TARGET_CPU : ℚ
  UNDERPROVISIONED_CPU_USAGE_THRESHOLD : ℚ
  CPU_CLASH_COUNT_THRESHOLD : ℕ
  MIN_REC_REPLICAS : ℤ
  MIN_DCR_PERCENTILE_VALUE : ℕ
  MAX_DCR_PERCENTILE_VALUE : ℕ
  deriving Repr, DecidableEq

/-- The default values of `Config`. -/
def defaultConfig : Config where
  HPA_SCALE_LIMIT := 23/10
  HPA_TARGET_BUFFER := 1/10
  HPA_SCALE_DOWN_DEFAULT_BEHAVIOUR_STEPS := 10
  EXTRA_HPA_BUFFER_FOR_MAX_REPLICAS := 1
  EXTRA_HPA_BUFFER_FOR_MEMORY_RECOMMENDATION := 21/20
  EXTRA_HPA_BUFFER_FOR_CPU_USAGE_CAPACITY := 21/20
  EXTRA_VPA_BUFFER_FOR_MEMORY_RECOMMENDATION := 21/20
  MIN_CPU_CORE_PROPOSED_VALUE := 1/100
  COST_OF_GB_IN_CPUS := 15/2
  MCPU_ROUNDING := 3
  MIN_HPA_TARGET_CPU := 2/5
  MAX_HPA_TARGET_CPU := 1
  UNDERPROVISIONED_CPU_USAGE_THRESHOLD := 9/10
  CPU_CLASH_COUNT_THRESHOLD := 0
  MIN_REC_REPLICAS := 3
  MIN_DCR_PERCENTILE_VALUE := 10
  MAX_DCR_PERCENTILE_VALUE := 100

/-- One row of the normalized workload trace (`workload_df`), in time order. -/
structure TraceRow where
  num_replicas_at_usage_window : ℤ
  avg_container_cpu_usage : ℚ
  avg_container_cpu_request : ℚ
  avg_container_mem_usage_mi : ℚ
  max_containers_mem_usage_mi : ℚ
  sum_containers_cpu_request : ℚ
  sum_containers_cpu_usage : ℚ
  sum_containers_mem_request_mi : ℚ
  sum_containers_mem_usage_mi : ℚ
  deriving Repr, DecidableEq, Inhabited

/-- `WorkloadPlan` (`utils/models.py`). -/
structure WorkloadPlan where
  recommended_cpu_request : ℚ
  recommended_mem_request_and_limits_mi : ℚ
  recommended_cpu_limit_or_unbounded : ℚ := 0
  recommended_min_replicas : ℤ := 0
  recommended_max_replicas : ℤ := 0
  recommended_hpa_target_cpu : ℚ := 0
  max_usage_slope_up_ratio : ℚ := 0
  workload_e2e_startup_latency_rows : ℤ := 0
  method : List Char := []
  deriving Repr, DecidableEq, Inhabited

/-! ### Simulator (`run_workload_simulation.py`) -/

/-- The per-row arrays written by `_simulate_behaviour`:
`forecast_replicas`, `forecast_replicas_desired`, `forecast_sum_cpu`,
`forecast_sum_mem`, `scale_up_behaviour`, plus the running
`cpu_clash_counter`. -/
structure SimAcc where
  reps : List ℤ := []
  des : List ℤ := []
  fcs : List ℚ := []
  fms : List ℚ := []
  mets : List ℚ := []
  clashes : ℕ := 0
  deriving Repr, DecidableEq, Inhabited

/-- The replica transition of `_simulate_behaviour` at row `i`, reading the
already-written prefix `des` of `forecast_replicas_desired` (the unwritten
tail of the preallocated `np.zeros` array reads as the `getD` default 0). -/
def stepReps (cfg : Config) (plan : WorkloadPlan) (r0 : ℤ) (des : List ℤ)
    (i : ℕ) : ℤ :=
  if (i : ℤ) < plan.workload_e2e_startup_latency_rows then r0
  else
    let j : ℤ := (i : ℤ) - plan.workload_e2e_startup_latency_rows
    let S : ℕ := cfg.HPA_SCALE_DOWN_DEFAULT_BEHAVIOUR_STEPS
    let sdStart : ℤ := max 0 (j - (S : ℤ))
    let replicas_up : ℤ :=
      if 0 ≤ j then des.getD j.toNat 0 else plan.recommended_min_replicas
    let replicas_down : ℤ :=
      if sdStart ≤ 0 then plan.recommended_min_replicas
      else max (listMaxZ ((des.drop sdStart.toNat).take S))
        plan.recommended_min_replicas
    clipZ (max replicas_up replicas_down)
      plan.recommended_min_replicas plan.recommended_max_replicas

/-- The desired-replica computation of `_simulate_behaviour` at row `i`
(`forecast_replicas_desired[i]`), given that row's replica count and metric. -/
def stepDes (plan : WorkloadPlan) (r0 : ℤ) (i : ℕ) (reps : ℤ) (m : ℚ) : ℤ :=
  if (i : ℤ) < plan.workload_e2e_startup_latency_rows then r0
  else
    max plan.recommended_min_replicas
      (min plan.recommended_max_replicas
        (ceilZ ((reps : ℚ) * (m / plan.recommended_hpa_target_cpu))))

/-- The current metric value of `_simulate_behaviour` at a row:
`round(sum_cpu_usage / forecast_sum_cpu if cpu_request > 0 else 0, 2)`. -/
def stepMet (plan : WorkloadPlan) (cpuUsage fc : ℚ) : ℚ :=
  round2 (if 0 < plan.recommended_cpu_request then cpuUsage / fc else 0)

/-- The main loop of `_simulate_behaviour` over the remaining trace rows;
`none` models the early `return pd.DataFrame()` after `rec.valid = False`. -/
def simGo (cfg : Config) (plan : WorkloadPlan) (r0 : ℤ) :
    List TraceRow → SimAcc → Option SimAcc
  | [], acc => some acc
  | row :: rest, acc =>
    let i := acc.reps.length
    let reps := stepReps cfg plan r0 acc.des i
    let fc : ℚ := (reps : ℚ) * plan.recommended_cpu_request
    let fm : ℚ := (reps : ℚ) * plan.recommended_mem_request_and_limits_mi
    let clashes' :=
      if fc < row.sum_containers_cpu_usage then acc.clashes + 1
      else acc.clashes
    if fc < row.sum_containers_cpu_usage ∧
        clashes' > cfg.CPU_CLASH_COUNT_THRESHOLD then none
    else if fm < row.sum_containers_mem_usage_mi then none
    else
      let m := stepMet plan row.sum_containers_cpu_usage fc
      let des := stepDes plan r0 i reps m
      simGo cfg plan r0 rest
        { reps := acc.reps ++ [reps], des := acc.des ++ [des],
          fcs := acc.fcs ++ [fc], fms := acc.fms ++ [fm],
          mets := acc.mets ++ [m], clashes := clashes' }

/-- `_simulate_behaviour`.  The `method == 'VPA'` branch writes constant
columns and returns without any clash check; the general branch runs the
per-row loop.  `none` models an invalidated simulation (empty DataFrame
returned with `rec.valid = False`). -/
def simulate_behaviour (cfg : Config) (plan : WorkloadPlan)
    (rows : List TraceRow) (starting_replica : ℤ) : Option SimAcc :=
  if plan.method = methodVPA then
    some
      { reps := rows.map fun _ => plan.recommended_max_replicas
        des := rows.map fun _ => plan.recommended_max_replicas
        fcs := rows.map fun _ =>
          (plan.recommended_max_replicas : ℚ) * plan.recommended_cpu_request
        fms := rows.map fun _ =>
          (plan.recommended_max_replicas : ℚ) *
            plan.recommended_mem_request_and_limits_mi
        mets := rows.map fun _ => 0
        clashes := 0 }
  else simGo cfg plan starting_replica rows {}

/-- `_calculate_starting_replicas`: `df.loc[0:L]` is label-inclusive, hence
the first `L+1` rows. -/
def calculate_starting_replicas (rows : List TraceRow)
    (plan : WorkloadPlan) : ℤ :=
  let max_cpu := listMaxQ
    ((rows.take (plan.workload_e2e_startup_latency_rows.toNat + 1)).map
      (fun r => r.sum_containers_cpu_usage))
  let starting_replicas := ceilZ (max_cpu / plan.recommended_cpu_request)
  clipZ starting_replicas plan.recommended_min_replicas
    plan.recommended_max_replicas

/-- `_is_plan_valid` (the rejection message is elided). -/
def is_plan_valid (cfg : Config) (plan : WorkloadPlan) : Bool :=
  if plan.max_usage_slope_up_ratio > cfg.HPA_SCALE_LIMIT then false
  else if plan.recommended_min_replicas > plan.recommended_max_replicas then
    false
  else if plan.recommended_hpa_target_cpu < cfg.MIN_HPA_TARGET_CPU then false
  else true

/-! ### Savings scorer (`_calculate_savings`, `_process_plan`,
`_analyze_configuration_plans`) -/

/-- The per-row `avg_saving_in_cpus` column of `_calculate_savings`:
`round(round(cpu_req - fc, 3) + (ceil(mem_req - fm) / 1024) / COST, 2)`,
walking the trace and the two forecast columns in parallel. -/
def avgSavingsList (cfg : Config) :
    List TraceRow → List ℚ → List ℚ → List ℚ
  | r :: rs, fc :: fcs, fm :: fms =>
    round2 (round3 (r.sum_containers_cpu_request - fc) +
        (ceilQ (r.sum_containers_mem_request_mi - fm) / 1024) /
          cfg.COST_OF_GB_IN_CPUS) ::
      avgSavingsList cfg rs fcs fms
  | _, _, _ => []

/-- `_process_plan` reduced to the quantity the selector reads: the plan's
mean `avg_saving_in_cpus`, or `none` when the plan is invalid, the
simulation was invalidated, or the analysis frame is empty. -/
def planScore (cfg : Config) (rows : List TraceRow)
    (plan : WorkloadPlan) : Option ℚ :=
  if is_plan_valid cfg plan = false then none
  else
    match simulate_behaviour cfg plan rows
      (calculate_starting_replicas rows plan) with
    | none => none
    | some out =>
      if rows.isEmpty then none
      else some (meanQ (avgSavingsList cfg rows out.fcs out.fms))

/-- The Python tuple order `(method, cpu_request, mem_request, max_replicas)`
used by `sorted` in `_get_unique_combinations`. -/
def planKeyLE (a b : WorkloadPlan) : Bool :=
  if a.method ≠ b.method then charsLT a.method b.method
  else if a.recommended_cpu_request ≠ b.recommended_cpu_request then
    decide (a.recommended_cpu_request < b.recommended_cpu_request)
  else if a.recommended_mem_request_and_limits_mi ≠
      b.recommended_mem_request_and_limits_mi then
    decide (a.recommended_mem_request_and_limits_mi <
      b.recommended_mem_request_and_limits_mi)
  else decide (a.recommended_max_replicas ≤ b.recommended_max_replicas)

/-- One step of the best-plan fold of `_analyze_configuration_plans`:
skip unscored (invalid) plans, keep the first plan whose mean saving
strictly exceeds the running best (`highest_avg_saving` starts at `-inf`,
so the first scored plan always wins). -/
def selectStep (cfg : Config) (rows : List TraceRow)
    (best : Option (WorkloadPlan × ℚ)) (plan : WorkloadPlan) :
    Option (WorkloadPlan × ℚ) :=
  match planScore cfg rows plan with
  | none => best
  | some s =>
    match best with
    | none => some (plan, s)
    | some (bp, bs) => if s > bs then some (plan, s) else some (bp, bs)

/-- The best-plan selection of `_analyze_configuration_plans`. -/
def selectBest (cfg : Config) (rows : List TraceRow)
    (plans : List WorkloadPlan) : Option (WorkloadPlan × ℚ) :=
  plans.foldl (selectStep cfg rows) none

/-! ### Plan generation (`plan_workload_simulation.py`) -/

/-- `_get_proposed_memory_recommendation`. -/
def get_proposed_memory_recommendation (cfg : Config) (rows : List TraceRow)
    (proposed_min_replicas : ℤ) : ℚ :=
  let total_memory_capacity :=
    listMaxQ (rows.map fun r => r.sum_containers_mem_usage_mi)
  let r := max proposed_min_replicas cfg.MIN_REC_REPLICAS
  let proposed_mem_recommendation := total_memory_capacity / (r : ℚ)
  ceilQ (min proposed_mem_recommendation
      (meanQ (rows.map fun r => r.avg_container_mem_usage_mi)) *
    max cfg.EXTRA_HPA_BUFFER_FOR_MEMORY_RECOMMENDATION 1)

/-- `get_min_replicas`: 10th-percentile replica count over the rows with a
positive count, truncated with `int(...)`; `MIN_REC_REPLICAS` if no row has
a positive count. -/
def get_min_replicas (rows : List TraceRow) (cfg : Config) : ℤ :=
  let df := rows.filter fun r =>
    decide (0 < r.num_replicas_at_usage_window)
  if df.isEmpty then cfg.MIN_REC_REPLICAS
  else truncZ (quantileLinear
    (df.map fun r => (r.num_replicas_at_usage_window : ℚ)) (1/10))

/-- `_is_cpu_under_provisioned`. -/
def is_cpu_under_provisioned (cfg : Config) (rows : List TraceRow) : Bool :=
  let max_cpu_request :=
    listMaxQ (rows.map fun r => r.avg_container_cpu_request)
  let cpu_usage_percentile :=
    quantileLinear (rows.map fun r => r.avg_container_cpu_usage)
      cfg.UNDERPROVISIONED_CPU_USAGE_THRESHOLD
  decide (max_cpu_request < cpu_usage_percentile)

/-- `_calculate_recommended_max_cpu_capacity`. -/
def calculate_recommended_max_cpu_capacity (cfg : Config)
    (rows : List TraceRow) : ℚ :=
  let base :=
    if is_cpu_under_provisioned cfg rows then
      listMaxQ (rows.map fun r => r.sum_containers_cpu_usage) *
        cfg.EXTRA_HPA_BUFFER_FOR_CPU_USAGE_CAPACITY
    else listMaxQ (rows.map fun r => r.sum_containers_cpu_request)
  base * cfg.EXTRA_HPA_BUFFER_FOR_MAX_REPLICAS

/-- `_vpa_recommendation`: the static fallback plan. -/
def vpa_recommendation (cfg : Config) (rows : List TraceRow) :
    WorkloadPlan :=
  let num_of_replicas :=
    max (listMinZ (rows.map fun r => r.num_replicas_at_usage_window))
      cfg.MIN_REC_REPLICAS
  { method := methodVPA
    recommended_cpu_request := round3
      ((quantileLinear (rows.map fun r => r.sum_containers_cpu_usage)
          (49/50) / (num_of_replicas : ℚ)) *
        cfg.EXTRA_HPA_BUFFER_FOR_CPU_USAGE_CAPACITY)
    recommended_cpu_limit_or_unbounded := ceilQ
      ((listMaxQ (rows.map fun r => r.sum_containers_cpu_usage) /
          (num_of_replicas : ℚ)) *
        cfg.EXTRA_HPA_BUFFER_FOR_CPU_USAGE_CAPACITY)
    recommended_mem_request_and_limits_mi := ceilQ
      ((listMaxQ (rows.map fun r => r.sum_containers_mem_usage_mi) /
          (num_of_replicas : ℚ)) *
        cfg.EXTRA_VPA_BUFFER_FOR_MEMORY_RECOMMENDATION)
    recommended_min_replicas := num_of_replicas
    recommended_max_replicas := num_of_replicas
    recommended_hpa_target_cpu := 1
    workload_e2e_startup_latency_rows := 1 }

/-- The `seen_combinations` dedup loop of `_dynamic_cpu_request`:
keep each percentile's plan unless its `(cpu, min, max)` triple was seen. -/
def dcrGo (cfg : Config) (max_cpu_capacity : ℚ) (min_replicas : ℤ)
    (proposed_mem : ℚ) :
    List (ℕ × ℚ) → List (ℚ × ℤ × ℤ) → List WorkloadPlan
  | [], _ => []
  | (p, cpu) :: rest, seen =>
    let max_replicas := ceilZ (max_cpu_capacity / cpu)
    if (cpu, min_replicas, max_replicas) ∈ seen then
      dcrGo cfg max_cpu_capacity min_replicas proposed_mem rest seen
    else
      { recommended_cpu_request := cpu
        recommended_mem_request_and_limits_mi := proposed_mem
        recommended_min_replicas := min_replicas
        recommended_max_replicas := max_replicas
        method := methodDCR p } ::
        dcrGo cfg max_cpu_capacity min_replicas proposed_mem rest
          ((cpu, min_replicas, max_replicas) :: seen)

/-- The minimum-replica floor computed once at the top of
`_dynamic_cpu_request`: `max(get_min_replicas(df, config), MIN_REC_REPLICAS)`. -/
def dcr_min_replicas (cfg : Config) (rows : List TraceRow) : ℤ :=
  max (get_min_replicas rows cfg) cfg.MIN_REC_REPLICAS

/-- `_dynamic_cpu_request`: one candidate per integer percentile in
`[MIN_DCR_PERCENTILE_VALUE, MAX_DCR_PERCENTILE_VALUE]`. -/
def dynamic_cpu_request (cfg : Config) (max_cpu_capacity : ℚ)
    (rows : List TraceRow) : List WorkloadPlan :=
  let min_replicas := dcr_min_replicas cfg rows
  let proposed_mem :=
    get_proposed_memory_recommendation cfg rows min_replicas
  let percentiles := (List.range
      (cfg.MAX_DCR_PERCENTILE_VALUE + 1 - cfg.MIN_DCR_PERCENTILE_VALUE)).map
    fun t => cfg.MIN_DCR_PERCENTILE_VALUE + t
  let cands : List (ℕ × ℚ) := percentiles.map fun p =>
    (p, max (roundTo cfg.MCPU_ROUNDING
        (quantileLinear (rows.map fun r => r.avg_container_cpu_usage)
          ((p : ℚ) / 100)))
      cfg.MIN_CPU_CORE_PROPOSED_VALUE)
  dcrGo cfg max_cpu_capacity min_replicas proposed_mem cands []

/-- `_dynamic_min_replicas`.  In the source's `while` loop the CPU request
and hence the recomputed `max_replicas` are loop-invariant (`cpu` below,
`dmrM`), so the loop visits `min_r = MIN_REC_REPLICAS, MIN_REC_REPLICAS+1,
…`; the first entry test uses the initial `max_replicas` derived from the
unfloored mean, later tests use `dmrM`, and the in-loop `break` on
`min_r * cpu > max(sum_containers_cpu_usage)` is the `takeWhile`. -/
def dynamic_min_replicas (cfg : Config) (max_cpu_capacity : ℚ)
    (rows : List TraceRow) : List WorkloadPlan :=
  let proposed_cpu_request := roundTo cfg.MCPU_ROUNDING
    (meanQ (rows.map fun r => r.avg_container_cpu_usage))
  if proposed_cpu_request = 0 then []
  else
    let initialMax := ceilZ (max_cpu_capacity / proposed_cpu_request)
    let cpu := max (round3 proposed_cpu_request)
      cfg.MIN_CPU_CORE_PROPOSED_VALUE
    let dmrM := ceilZ (max_cpu_capacity / cpu)
    let maxSum := listMaxQ (rows.map fun r => r.sum_containers_cpu_usage)
    if cfg.MIN_REC_REPLICAS < initialMax then
      let ks : List ℤ := cfg.MIN_REC_REPLICAS ::
        (List.range (dmrM - (cfg.MIN_REC_REPLICAS + 1)).toNat).map
          fun t => cfg.MIN_REC_REPLICAS + 1 + (t : ℤ)
      (ks.takeWhile fun (k : ℤ) =>
          decide ((k : ℚ) * cpu ≤ maxSum)).map fun k =>
        { recommended_cpu_request := cpu
          recommended_mem_request_and_limits_mi :=
            ceilQ (get_proposed_memory_recommendation cfg rows dmrM)
          recommended_min_replicas := k
          recommended_max_replicas := dmrM
          method := methodDMR k }
    else []

/-- The first-occurrence dedup of `_get_unique_combinations`, key
`(cpu_request, mem_request, min_replicas, max_replicas)`. -/
def dedupPlans : List WorkloadPlan → List (ℚ × ℚ × ℤ × ℤ) →
    List WorkloadPlan
  | [], _ => []
  | p :: rest, seen =>
    let key := (p.recommended_cpu_request,
      p.recommended_mem_request_and_limits_mi,
      p.recommended_min_replicas, p.recommended_max_replicas)
    if key ∈ seen then dedupPlans rest seen
    else p :: dedupPlans rest (key :: seen)

/-- `_get_unique_combinations`: dedup, then `sorted` by
`(method, cpu_request, mem_request, max_replicas)`. -/
def get_unique_combinations (workload_plans : List WorkloadPlan) :
    List WorkloadPlan :=
  sortLE planKeyLE (dedupPlans workload_plans [])

/-- One row of the slope analysis added by
`_calculate_max_usage_slope_up_ratio`; the rolling forward-window maxima
are `none` where pandas leaves `NaN` (fewer than `window_size`
observations remain, since `min_periods` defaults to the window size for a
`BaseIndexer` window). -/
structure SlopeRow where
  cpuHor : Option ℚ
  memHor : Option ℚ
  slope : ℚ
  deriving Repr, DecidableEq, Inhabited

/-- `_calculate_max_usage_slope_up_ratio`; `none` models the
`ValueError` raised for `workload_e2e_startup_latency_rows ≤ 0`.  A ratio
whose numerator is `NaN` (truncated window) or whose denominator is 0
(`replace(0, np.nan)`) is `NaN` and becomes 0 through `fillna(0)`. -/
def calculate_max_usage_slope_up_ratio (rows : List TraceRow) (l : ℤ) :
    Option (List SlopeRow) :=
  if l ≤ 0 then none
  else
    let n := rows.length
    let window := l.toNat
    some ((List.range n).map fun i =>
      let cpuHor : Option ℚ :=
        if i + window ≤ n then
          some (listMaxQ (((rows.drop i).take window).map
            fun r => r.avg_container_cpu_usage))
        else none
      let memHor : Option ℚ :=
        if i + window ≤ n then
          some (listMaxQ (((rows.drop i).take window).map
            fun r => r.max_containers_mem_usage_mi))
        else none
      let usageCpu := (rows.getD i default).avg_container_cpu_usage
      let usageMem := (rows.getD i default).max_containers_mem_usage_mi
      let cpu_ratio : ℚ :=
        match cpuHor with
        | none => 0
        | some v => if usageCpu = 0 then 0 else v / usageCpu
      let mem_ratio : ℚ :=
        match memHor with
        | none => 0
        | some v => if usageMem = 0 then 0 else v / usageMem
      { cpuHor := cpuHor, memHor := memHor,
        slope := max cpu_ratio mem_ratio })

/-- `((1 - HPA_TARGET_BUFFER) / slope_series).min()` of
`_get_recommended_configs`: a zero slope contributes `inf`, which never
wins the minimum; if every entry is `inf` the minimum is `inf` and the
target range check rejects, modelled by `none`. -/
def min_pos_div (b : ℚ) (ss : List ℚ) : Option ℚ :=
  match ss.filterMap fun s => if s = 0 then none else some (b / s) with
  | [] => none
  | c :: cs => some (cs.foldl min c)

/-- `_get_recommended_configs` over the trace zipped with its slope rows;
`none` is a rejected plan (the reason string is elided). -/
def get_recommended_configs (cfg : Config) (plan : WorkloadPlan)
    (z : List (TraceRow × SlopeRow)) : Option WorkloadPlan :=
  let filtered := z.filter fun rs =>
    decide (rs.1.avg_container_cpu_usage ≥ plan.recommended_cpu_request)
  if filtered.isEmpty then none
  else
    let slope := round2 (listMaxQ (filtered.map fun rs => rs.2.slope))
    if slope > cfg.HPA_SCALE_LIMIT then none
    else
      match min_pos_div (1 - cfg.HPA_TARGET_BUFFER)
        (filtered.map fun rs => rs.2.slope) with
      | none => none
      | some tmin =>
        let target := round2 tmin
        if target < cfg.MIN_HPA_TARGET_CPU ∨
            target > cfg.MAX_HPA_TARGET_CPU then none
        else
          some { plan with
            max_usage_slope_up_ratio := slope
            recommended_hpa_target_cpu := target
            recommended_cpu_limit_or_unbounded := ceilQ
              (plan.recommended_cpu_request +
                listMaxQ (filtered.filterMap fun rs => rs.2.cpuHor) /
                  (plan.recommended_max_replicas : ℚ)) }

/-- `get_simulation_plans` (the reasons map is elided): `some []` is a
normal return with no plans, `none` the propagated `ValueError` of the
slope analyzer. -/
def get_simulation_plans (cfg : Config)
    (workload_e2e_startup_latency_rows : ℤ) (rows : List TraceRow) :
    Option (List WorkloadPlan) :=
  if rows.isEmpty then some []
  else
    let max_cpu_capacity := calculate_recommended_max_cpu_capacity cfg rows
    if max_cpu_capacity = 0 then some []
    else
      let dcr := dynamic_cpu_request cfg max_cpu_capacity rows
      let dmr := dynamic_min_replicas cfg max_cpu_capacity rows
      let proposed := get_unique_combinations (dcr ++ dmr)
      if proposed.isEmpty then some []
      else
        match calculate_max_usage_slope_up_ratio rows
          workload_e2e_startup_latency_rows with
        | none => none
        | some sloped =>
          let plans := proposed.filterMap fun p =>
            get_recommended_configs cfg
              { p with workload_e2e_startup_latency_rows :=
                  workload_e2e_startup_latency_rows }
              (rows.zip sloped)
          some (plans ++ [vpa_recommendation cfg rows])

/-! ### Quantities named by the claims -/

/-- The number of trace rows whose forecast CPU capacity is below the
actual CPU usage (the quantity bounded by `CPU_CLASH_COUNT_THRESHOLD`). -/
def countClashes : List TraceRow → List ℚ → ℕ
  | r :: rs, fc :: fcs =>
    (if fc < r.sum_containers_cpu_usage then 1 else 0) + countClashes rs fcs
  | _, _ => 0

/-! ### Claim-side formulas, transcribed from the specification's words
(each is compared against the source-side definition above). -/

/-- Claim C2, starting replicas: `clip(ceil(max(sum_containers_cpu_usage
over the first L+1 rows) / cpu_request), min_replicas, max_replicas)`. -/
def c2_starting_replicas (rows : List TraceRow) (plan : WorkloadPlan) : ℤ :=
  clipZ
    (ceilZ (listMaxQ
        ((rows.take (plan.workload_e2e_startup_latency_rows.toNat + 1)).map
          fun r => r.sum_containers_cpu_usage) /
      plan.recommended_cpu_request))
    plan.recommended_min_replicas plan.recommended_max_replicas

/-- Claim C2, replica transition: for `i ≥ L`,
`replicas[i] = clip(max(scale_up, scale_down), min, max)` with
`scale_up = desired[i-L]` and `scale_down = min_replicas` when
`max(0, i-L-S) = 0`, else the maximum of `desired` over the `S`-row
look-back starting at `i-L-S`, clamped below by `min_replicas`. -/
def c2_replica_formula (cfg : Config) (plan : WorkloadPlan) (des : List ℤ)
    (r0 : ℤ) (i : ℕ) : ℤ :=
  let l := plan.workload_e2e_startup_latency_rows.toNat
  let s := cfg.HPA_SCALE_DOWN_DEFAULT_BEHAVIOUR_STEPS
  if i < l then r0
  else
    let scale_up := des.getD (i - l) 0
    let scale_down :=
      if i - l - s = 0 then plan.recommended_min_replicas
      else max (listMaxZ ((des.drop (i - l - s)).take s))
        plan.recommended_min_replicas
    clipZ (max scale_up scale_down) plan.recommended_min_replicas
      plan.recommended_max_replicas

/-- Claim C3: the *baseline-and-above* subset, the trace rows with
`avg_container_cpu_usage ≥ plan.recommended_cpu_request`. -/
def c3_subset (plan : WorkloadPlan) (z : List (TraceRow × SlopeRow)) :
    List (TraceRow × SlopeRow) :=
  z.filter fun rs =>
    decide (rs.1.avg_container_cpu_usage ≥ plan.recommended_cpu_request)

/-- Claim C3: the rejection condition — empty subset, or
`round(max slope, 2) > HPA_SCALE_LIMIT`, or the rounded minimum of
`(1 - HPA_TARGET_BUFFER) / max_usage_slope_up_ratio` outside
`[MIN_HPA_TARGET_CPU, MAX_HPA_TARGET_CPU]` (an all-`inf` minimum, `none`
here, is outside every range). -/
def c3_rejects (cfg : Config) (plan : WorkloadPlan)
    (z : List (TraceRow × SlopeRow)) : Prop :=
  c3_subset plan z = [] ∨
  round2 (listMaxQ ((c3_subset plan z).map fun rs => rs.2.slope)) >
    cfg.HPA_SCALE_LIMIT ∨
  (match min_pos_div (1 - cfg.HPA_TARGET_BUFFER)
      ((c3_subset plan z).map fun rs => rs.2.slope) with
   | none => True
   | some v => round2 v < cfg.MIN_HPA_TARGET_CPU ∨
       round2 v > cfg.MAX_HPA_TARGET_CPU)

/-- Claim C5 as stated: `max(MIN_REC_REPLICAS, ⌈quantile_10(replicas>0)⌉)`,
falling back to `MIN_REC_REPLICAS` when no row has a positive count. -/
def c5_claim_floor (cfg : Config) (rows : List TraceRow) : ℤ :=
  let pos := rows.filter fun r => decide (0 < r.num_replicas_at_usage_window)
  if pos.isEmpty then cfg.MIN_REC_REPLICAS
  else max cfg.MIN_REC_REPLICAS
    (ceilZ (quantileLinear
      (pos.map fun r => (r.num_replicas_at_usage_window : ℚ)) (1/10)))

/-- Claim C5 as amended: the quantile is truncated with `int(...)`, not
taken with a ceiling. -/
def c5_amended_floor (cfg : Config) (rows : List TraceRow) : ℤ :=
  let pos := rows.filter fun r => decide (0 < r.num_replicas_at_usage_window)
  if pos.isEmpty then cfg.MIN_REC_REPLICAS
  else max cfg.MIN_REC_REPLICAS
    (truncZ (quantileLinear
      (pos.map fun r => (r.num_replicas_at_usage_window : ℚ)) (1/10)))

/-- Claim C6: `max_cpu_in_horizon[i]`, the maximum of
`avg_container_cpu_usage` over the forward window `[i, i+L)`. -/
def c6_cpu_horizon (rows : List TraceRow) (l i : ℕ) : ℚ :=
  listMaxQ (((rows.drop i).take l).map fun r => r.avg_container_cpu_usage)

/-- Claim C6: `max_mem_in_horizon[i]` over `max_containers_mem_usage_mi`. -/
def c6_mem_horizon (rows : List TraceRow) (l i : ℕ) : ℚ :=
  listMaxQ (((rows.drop i).take l).map fun r => r.max_containers_mem_usage_mi)

/-- Claim C6: `max_usage_slope_up_ratio[i] = max(cpu_ratio[i], mem_ratio[i])`
with `x/0 = 0` (which subsumes the claim's `0/0 → 0`). -/
def c6_slope (rows : List TraceRow) (l i : ℕ) : ℚ :=
  max (c6_cpu_horizon rows l i /
      (rows.getD i default).avg_container_cpu_usage)
    (c6_mem_horizon rows l i /
      (rows.getD i default).max_containers_mem_usage_mi)

/-- Claim C7: `avg_saving_in_cpus` of one row — `forecast_cpu_saving` plus
`forecast_mem_saving_mi/1024` divided by `COST_OF_GB_IN_CPUS`, rounded to
2 decimals. -/
def c7_avg_saving (cfg : Config) (row : TraceRow) (fc fm : ℚ) : ℚ :=
  round2 (round3 (row.sum_containers_cpu_request - fc) +
    (ceilQ (row.sum_containers_mem_request_mi - fm) / 1024) /
      cfg.COST_OF_GB_IN_CPUS)

/-- Claim C7: the per-row savings column. -/
def c7_avg_list (cfg : Config) :
    List TraceRow → List ℚ → List ℚ → List ℚ
  | r :: rs, fc :: fcs, fm :: fms =>
    c7_avg_saving cfg r fc fm :: c7_avg_list cfg rs fcs fms
  | _, _, _ => []

/-! ### Concrete inputs used by counterexamples and witnesses.
All values are exactly representable in the source's float16/float32
columns and away from every rounding tie. -/

/-- An all-zero trace row to derive the concrete rows from. -/
def rowZero : TraceRow where
  num_replicas_at_usage_window := 0
  avg_container_cpu_usage := 0
  avg_container_cpu_request := 0
  avg_container_mem_usage_mi := 0
  max_containers_mem_usage_mi := 0
  sum_containers_cpu_request := 0
  sum_containers_cpu_usage := 0
  sum_containers_mem_request_mi := 0
  sum_containers_mem_usage_mi := 0

/-- C5: a trace whose positive replica counts are 10 and 15, so the 10th
percentile is 10.5. -/
def rowC5a : TraceRow := { rowZero with num_replicas_at_usage_window := 10 }

/-- C5: the second replica-count row. -/
def rowC5b : TraceRow := { rowZero with num_replicas_at_usage_window := 15 }

/-- C9/C1/C2/C7: a busy row — one replica, CPU usage 1 of request 2. -/
def rowSim : TraceRow := { rowZero with
  num_replicas_at_usage_window := 1
  avg_container_cpu_usage := 1
  avg_container_cpu_request := 2
  sum_containers_cpu_request := 2
  sum_containers_cpu_usage := 1 }

/-- C2: a three-row trace exercising both the startup phase and the
post-latency transitions. -/
def rowsC2 : List TraceRow := [rowSim, rowSim, rowSim]

/-- C9: baseline plan with CPU request 1. -/
def planC9A : WorkloadPlan where
  recommended_cpu_request := 1
  recommended_mem_request_and_limits_mi := 0
  recommended_min_replicas := 1
  recommended_max_replicas := 2
  recommended_hpa_target_cpu := 1/2
  workload_e2e_startup_latency_rows := 1
  method := methodDCR 50

/-- C9: the same plan with the lower CPU request 0.9. -/
def planC9B : WorkloadPlan :=
  { planC9A with recommended_cpu_request := 9/10 }

/-- C9 witness: `planC9A` with memory request 10. -/
def planC9MemA : WorkloadPlan :=
  { planC9A with recommended_mem_request_and_limits_mi := 10 }

/-- C9 witness: `planC9A` with the lower memory request 5. -/
def planC9MemB : WorkloadPlan :=
  { planC9A with recommended_mem_request_and_limits_mi := 5 }

/-- C1: a VPA plan with one replica and one core capacity. -/
def planVPA1 : WorkloadPlan where
  recommended_cpu_request := 1
  recommended_mem_request_and_limits_mi := 1
  recommended_min_replicas := 1
  recommended_max_replicas := 1
  recommended_hpa_target_cpu := 1
  workload_e2e_startup_latency_rows := 1
  method := methodVPA

/-- C1: a row whose usage exceeds `planVPA1`'s forecast capacity in both
CPU and memory. -/
def rowClash : TraceRow := { rowSim with
  sum_containers_cpu_usage := 5
  sum_containers_mem_usage_mi := 5 }

/-- C4: a trace with zero usage but nonzero CPU requests, so plan
generation proceeds and the VPA fallback's CPU request rounds to 0. -/
def rowA : TraceRow := { rowZero with
  num_replicas_at_usage_window := 1
  avg_container_cpu_request := 1
  sum_containers_cpu_request := 2 }

/-- C4/C8: steady usage 0.5 with request 0.6, one replica: the DCR plan
gets `max_replicas = 2` below the floor `min_replicas = 3` yet passes the
validator. -/
def rowB : TraceRow := { rowZero with
  num_replicas_at_usage_window := 1
  avg_container_cpu_usage := 1/2
  avg_container_cpu_request := 3/5
  avg_container_mem_usage_mi := 100
  max_containers_mem_usage_mi := 100
  sum_containers_cpu_request := 3/5
  sum_containers_cpu_usage := 1/2
  sum_containers_mem_request_mi := 100
  sum_containers_mem_usage_mi := 100 }

/-- The DCR plan emitted on `[rowB, rowB]` (percentiles 10–100 all give
CPU 0.5 and dedup to one plan). -/
def planDcrB : WorkloadPlan where
  recommended_cpu_request := 1/2
  recommended_mem_request_and_limits_mi := 35
  recommended_cpu_limit_or_unbounded := 1
  recommended_min_replicas := 3
  recommended_max_replicas := 2
  recommended_hpa_target_cpu := 9/10
  max_usage_slope_up_ratio := 1
  workload_e2e_startup_latency_rows := 1
  method := methodDCR 10

/-- C6: a row with unit CPU and memory usage. -/
def rowSlope : TraceRow := { rowZero with
  avg_container_cpu_usage := 1
  max_containers_mem_usage_mi := 1 }

/-- C10: a plan whose HPA target 1.5 exceeds `MAX_HPA_TARGET_CPU` but whose
other fields pass every `_is_plan_valid` criterion. -/
def planC10 : WorkloadPlan where
  recommended_cpu_request := 1
  recommended_mem_request_and_limits_mi := 1
  recommended_min_replicas := 1
  recommended_max_replicas := 2
  recommended_hpa_target_cpu := 3/2
  max_usage_slope_up_ratio := 1
  workload_e2e_startup_latency_rows := 1
  method := methodDCR 50

/-! ### List helper lemmas -/

lemma insertLE_perm {α : Type} (le : α → α → Bool) (a : α) (l : List α) :
    (insertLE le a l).Perm (a :: l) := by
  induction l with
  | nil => exact List.Perm.refl _
  | cons h t ih =>
    simp only [insertLE]
    split
    · exact List.Perm.refl _
    · exact (List.Perm.cons h ih).trans (List.Perm.swap a h t)

lemma sortLE_perm {α : Type} (le : α → α → Bool) (l : List α) :
    (sortLE le l).Perm l := by
  induction l with
  | nil => exact List.Perm.refl _
  | cons h t ih =>
    exact (insertLE_perm le h (sortLE le t)).trans (List.Perm.cons h ih)

lemma mem_sortLE {α : Type} {le : α → α → Bool} {l : List α} {x : α} :
    x ∈ sortLE le l ↔ x ∈ l := (sortLE_perm le l).mem_iff

lemma length_sortLE {α : Type} (le : α → α → Bool) (l : List α) :
    (sortLE le l).length = l.length := (sortLE_perm le l).length_eq

lemma getD_map_range {α : Type} (f : ℕ → α) {n i : ℕ} (hi : i < n) (d : α) :
    ((List.range n).map f).getD i d = f i := by
  rw [List.getD_eq_getElem _ _ (by simpa using hi), List.getElem_map,
    List.getElem_range]

lemma mem_of_mem_dedupPlans {p : WorkloadPlan} :
    ∀ {l : List WorkloadPlan} {seen}, p ∈ dedupPlans l seen → p ∈ l := by
  intro l
  induction l with
  | nil => intro seen h; simp [dedupPlans] at h
  | cons q t ih =>
    intro seen h
    simp only [dedupPlans] at h
    split at h
    · exact List.mem_cons_of_mem _ (ih h)
    · rcases List.mem_cons.mp h with h | h
      · exact h ▸ List.mem_cons_self _ _
      · exact List.mem_cons_of_mem _ (ih h)

lemma dedupPlans_cons_nil (q : WorkloadPlan) (t : List WorkloadPlan) :
    dedupPlans (q :: t) [] =
      q :: dedupPlans t [(q.recommended_cpu_request,
        q.recommended_mem_request_and_limits_mi,
        q.recommended_min_replicas, q.recommended_max_replicas)] := by
  simp [dedupPlans]

/-! ### C10 — the pre-simulation validity check -/

/-- C10: `_is_plan_valid` rejects exactly on slope above `HPA_SCALE_LIMIT`,
min replicas above max replicas, or HPA target below `MIN_HPA_TARGET_CPU`;
in particular only the lower target bound is enforced, and the concrete
plan `planC10` with target 1.5 > `MAX_HPA_TARGET_CPU` is accepted. -/
theorem C10_theorem :
    (∀ cfg plan, is_plan_valid cfg plan = false ↔
      (plan.max_usage_slope_up_ratio > cfg.HPA_SCALE_LIMIT ∨
       plan.recommended_min_replicas > plan.recommended_max_replicas ∨
       plan.recommended_hpa_target_cpu < cfg.MIN_HPA_TARGET_CPU)) ∧
    (is_plan_valid defaultConfig planC10 = true ∧
     planC10.recommended_hpa_target_cpu >
       defaultConfig.MAX_HPA_TARGET_CPU) := by
  constructor
  · intro cfg plan
    simp only [is_plan_valid]
    split_ifs with h1 h2 h3
    · simp [h1]
    · simp [h1, h2]
    · simp [h1, h2, h3]
    · simp [h1, h2, h3]
  · constructor
    · decide
    · decide

/-! ### C5 — the minimum-replica floor of the plan generator -/

/-- C5 counterexample: on replica counts 10 and 15 the 10th percentile is
10.5; the generator floor truncates to 10 while the claim's ceiling gives
11. -/
theorem C5_counterexample :
    dcr_min_replicas defaultConfig [rowC5a, rowC5b] = 10 ∧
    c5_claim_floor defaultConfig [rowC5a, rowC5b] = 11 := by
  constructor
  · decide
  · decide

/-- C5 (amended): the floor used by the plan generator equals
`max(MIN_REC_REPLICAS, int(quantile_10(replicas>0)))` — `int` truncation,
not ceiling — with the `MIN_REC_REPLICAS` fallback when no row has a
positive replica count. -/
theorem C5_theorem (cfg : Config) (rows : List TraceRow) :
    dcr_min_replicas cfg rows = c5_amended_floor cfg rows := by
  simp only [dcr_min_replicas, get_min_replicas, c5_amended_floor]
  split
  · exact max_self _
  · exact max_comm _ _

/-! ### C6 — the slope-up analyzer -/

/-- C6 counterexample: with `L = 2` on a two-row trace, the last row's
window is truncated, pandas leaves `NaN` maxima (`min_periods` defaults to
the window size) and `fillna(0)` zeroes the ratio, while the claim's
formula over the truncated window gives 1. -/
theorem C6_counterexample :
    (calculate_max_usage_slope_up_ratio [rowSlope, rowSlope] 2).map
        (fun out => ((out.getD 1 default).slope,
          (out.getD 1 default).cpuHor)) = some (0, none) ∧
    c6_slope [rowSlope, rowSlope] 2 1 = 1 := by
  constructor
  · decide
  · decide

/-- C6 (amended): for `L > 0` the analyzer computes, at every row `i` with
`i + L ≤ n`, the horizon maxima over `[i, i+L)`, the ratios with zero
denominators giving 0, and their maximum; at the last `L-1` rows the
horizon maxima are undefined (`NaN`) and `max_usage_slope_up_ratio` is 0;
and it errors out exactly when `L ≤ 0`. -/
theorem C6_theorem (rows : List TraceRow) (l : ℤ) :
    (l ≤ 0 → calculate_max_usage_slope_up_ratio rows l = none) ∧
    (0 < l → ∃ out, calculate_max_usage_slope_up_ratio rows l = some out ∧
      out.length = rows.length ∧
      ∀ i, i < rows.length →
        (i + l.toNat ≤ rows.length →
          (out.getD i default).cpuHor =
            some (c6_cpu_horizon rows l.toNat i) ∧
          (out.getD i default).memHor =
            some (c6_mem_horizon rows l.toNat i) ∧
          (out.getD i default).slope = c6_slope rows l.toNat i) ∧
        (rows.length < i + l.toNat → (out.getD i default).slope = 0)) := by
  constructor
  · intro h
    simp [calculate_max_usage_slope_up_ratio, h]
  · intro h
    have hne : ¬ l ≤ 0 := not_le.mpr h
    simp only [calculate_max_usage_slope_up_ratio, if_neg hne]
    refine ⟨_, rfl, by simp, ?_⟩
    intro i hi
    rw [getD_map_range _ hi]
    constructor
    · intro hin
      refine ⟨by simp [hin, c6_cpu_horizon], by simp [hin, c6_mem_horizon],
        ?_⟩
      simp only [hin, if_true]
      unfold c6_slope c6_cpu_horizon c6_mem_horizon
      rcases eq_or_ne
          ((rows[i]?.getD (default : TraceRow)).avg_container_cpu_usage) 0
          with hc | hc <;>
        rcases eq_or_ne
            ((rows[i]?.getD
              (default : TraceRow)).max_containers_mem_usage_mi) 0
          with hm | hm <;>
        simp [hc, hm, List.map_take, List.map_drop, List.getD]
    · intro hout
      have hx : ¬ (i + l.toNat ≤ rows.length) := by omega
      simp [hx]

/-! ### C3 — the plan validator / target sizer -/

/-- C3: `_get_recommended_configs` rejects exactly when the
baseline-and-above subset is empty, its rounded maximal slope exceeds
`HPA_SCALE_LIMIT`, or the rounded minimum of
`(1 - HPA_TARGET_BUFFER)/slope` falls outside
`[MIN_HPA_TARGET_CPU, MAX_HPA_TARGET_CPU]`; otherwise it accepts and sets
the HPA target to that rounded minimum and the CPU limit to
`ceil(cpu_request + max(max_cpu_in_horizon over the subset)/max_replicas)`. -/
theorem C3_theorem (cfg : Config) (plan : WorkloadPlan)
    (z : List (TraceRow × SlopeRow)) :
    (get_recommended_configs cfg plan z = none ↔ c3_rejects cfg plan z) ∧
    (∀ out, get_recommended_configs cfg plan z = some out →
      (∃ v, min_pos_div (1 - cfg.HPA_TARGET_BUFFER)
          ((c3_subset plan z).map fun rs => rs.2.slope) = some v ∧
        out.recommended_hpa_target_cpu = round2 v) ∧
      out.recommended_cpu_limit_or_unbounded = ceilQ
        (plan.recommended_cpu_request +
          listMaxQ ((c3_subset plan z).filterMap fun rs => rs.2.cpuHor) /
            (plan.recommended_max_replicas : ℚ)) ∧
      out.recommended_cpu_request = plan.recommended_cpu_request) := by
  unfold get_recommended_configs c3_rejects c3_subset
  set F := z.filter
    (fun rs =>
      decide (rs.1.avg_container_cpu_usage ≥ plan.recommended_cpu_request))
    with hF
  by_cases hE : F.isEmpty
  · have hE' : F = [] := List.isEmpty_iff.mp hE
    refine ⟨by simp [hE, hE'], ?_⟩
    intro out h
    rw [if_pos hE] at h
    simp at h
  · have hE' : ¬ F = [] := fun h => hE (by simp [h])
    rw [if_neg hE]
    by_cases hS : round2 (listMaxQ (F.map fun rs => rs.2.slope)) >
      cfg.HPA_SCALE_LIMIT
    · rw [if_pos hS]
      refine ⟨by simp [hE', hS], ?_⟩
      intro out h
      simp at h
    · rw [if_neg hS]
      cases hM : min_pos_div (1 - cfg.HPA_TARGET_BUFFER)
        (F.map fun rs => rs.2.slope) with
      | none =>
        refine ⟨by simp [hE', hS, hM], ?_⟩
        intro out h
        simp at h
      | some v =>
        dsimp only
        by_cases hT : round2 v < cfg.MIN_HPA_TARGET_CPU ∨
          round2 v > cfg.MAX_HPA_TARGET_CPU
        · rw [if_pos hT]
          refine ⟨by simp [hE', hS, hM, hT], ?_⟩
          intro out h
          simp at h
        · rw [if_neg hT]
          constructor
          · simp [hE', hS, hM, hT]
          · intro out h
            rw [Option.some_inj] at h
            subst h
            exact ⟨⟨v, rfl, rfl⟩, rfl, rfl⟩

/-- C3 witness: a concrete rejected input — the empty trace has an empty
baseline-and-above subset, so the validator rejects `planC9A`. -/
theorem C3_witness : get_recommended_configs defaultConfig planC9A [] =
    none :=
  (C3_theorem defaultConfig planC9A []).1.mpr (Or.inl rfl)

/-! ### C8 — the VPA fallback is always included -/

lemma dynamic_cpu_request_ne_nil (cfg : Config) (cap : ℚ)
    (rows : List TraceRow)
    (hp : cfg.MIN_DCR_PERCENTILE_VALUE ≤ cfg.MAX_DCR_PERCENTILE_VALUE) :
    dynamic_cpu_request cfg cap rows ≠ [] := by
  unfold dynamic_cpu_request
  obtain ⟨k, t, hkt⟩ : ∃ k t, List.range
      (cfg.MAX_DCR_PERCENTILE_VALUE + 1 - cfg.MIN_DCR_PERCENTILE_VALUE) =
        k :: t := by
    cases hr : List.range
      (cfg.MAX_DCR_PERCENTILE_VALUE + 1 -
        cfg.MIN_DCR_PERCENTILE_VALUE) with
    | nil =>
      exfalso
      have := congrArg List.length hr
      simp at this
      omega
    | cons k t => exact ⟨k, t, rfl⟩
  rw [hkt]
  simp [dcrGo]

lemma get_unique_combinations_cons (q : WorkloadPlan)
    (t : List WorkloadPlan) : get_unique_combinations (q :: t) ≠ [] := by
  unfold get_unique_combinations
  rw [dedupPlans_cons_nil]
  intro h
  have := congrArg List.length h
  rw [length_sortLE] at this
  simp at this

/-- C8: whenever the trace is nonempty, the capacity estimate is nonzero
(and the DCR percentile range is nonempty, as in the default
configuration) and `get_simulation_plans` returns, the returned plan list
contains the static VPA plan, whose minimum replicas equal its maximum
replicas. -/
theorem C8_theorem (cfg : Config) (l : ℤ) (rows : List TraceRow)
    (plans : List WorkloadPlan)
    (hrows : rows ≠ [])
    (hcap : calculate_recommended_max_cpu_capacity cfg rows ≠ 0)
    (hp : cfg.MIN_DCR_PERCENTILE_VALUE ≤ cfg.MAX_DCR_PERCENTILE_VALUE)
    (h : get_simulation_plans cfg l rows = some plans) :
    vpa_recommendation cfg rows ∈ plans ∧
    (vpa_recommendation cfg rows).recommended_min_replicas =
      (vpa_recommendation cfg rows).recommended_max_replicas := by
  refine ⟨?_, rfl⟩
  unfold get_simulation_plans at h
  rw [if_neg (by simpa using hrows), if_neg hcap] at h
  have hdcr := dynamic_cpu_request_ne_nil cfg
    (calculate_recommended_max_cpu_capacity cfg rows) rows hp
  cases hd : dynamic_cpu_request cfg
      (calculate_recommended_max_cpu_capacity cfg rows) rows with
  | nil => exact absurd hd hdcr
  | cons q s =>
    simp only [hd, List.cons_append] at h
    rw [if_neg (by
      simp only [List.isEmpty_iff]
      exact get_unique_combinations_cons q _)] at h
    cases hs : calculate_max_usage_slope_up_ratio rows l with
    | none => rw [hs] at h; simp at h
    | some sloped =>
      rw [hs] at h
      dsimp only at h
      rw [Option.some_inj] at h
      rw [← h]
      exact List.mem_append_right _ (List.mem_singleton.mpr rfl)

/-! ### C4 — bounds on emitted plans -/

lemma get_recommended_configs_fields {cfg : Config} {plan out : WorkloadPlan}
    {z : List (TraceRow × SlopeRow)}
    (h : get_recommended_configs cfg plan z = some out) :
    out.recommended_cpu_request = plan.recommended_cpu_request ∧
    cfg.MIN_HPA_TARGET_CPU ≤ out.recommended_hpa_target_cpu ∧
    out.recommended_hpa_target_cpu ≤ cfg.MAX_HPA_TARGET_CPU ∧
    out.recommended_min_replicas = plan.recommended_min_replicas ∧
    out.recommended_max_replicas = plan.recommended_max_replicas := by
  unfold get_recommended_configs at h
  dsimp only at h
  split_ifs at h with h1 h2
  cases hM : min_pos_div (1 - cfg.HPA_TARGET_BUFFER)
      ((z.filter fun rs => decide
        (rs.1.avg_container_cpu_usage ≥
          plan.recommended_cpu_request)).map fun rs => rs.2.slope) with
  | none => rw [hM] at h; simp at h
  | some v =>
    rw [hM] at h
    dsimp only at h
    split_ifs at h with h3
    rw [Option.some_inj] at h
    subst h
    push_neg at h3
    exact ⟨rfl, h3.1, h3.2, rfl, rfl⟩

lemma dcrGo_cpu_floor (cfg : Config) (cap : ℚ) (minr : ℤ) (mem m : ℚ) :
    ∀ (cands : List (ℕ × ℚ)) (seen : List (ℚ × ℤ × ℤ)) (p : WorkloadPlan),
    (∀ c ∈ cands, m ≤ c.2) → p ∈ dcrGo cfg cap minr mem cands seen →
    m ≤ p.recommended_cpu_request := by
  intro cands
  induction cands with
  | nil => intro seen p _ hp; simp [dcrGo] at hp
  | cons c rest ih =>
    intro seen p hall hp
    obtain ⟨pp, cpu⟩ := c
    simp only [dcrGo] at hp
    split at hp
    · exact ih _ p (fun c hc => hall c (List.mem_cons_of_mem _ hc)) hp
    · rcases List.mem_cons.mp hp with rfl | hp'
      · exact hall (pp, cpu) (List.mem_cons_self _ _)
      · exact ih _ p (fun c hc => hall c (List.mem_cons_of_mem _ hc)) hp'

lemma dynamic_cpu_request_cpu_floor {cfg : Config} {cap : ℚ}
    {rows : List TraceRow} {p : WorkloadPlan}
    (hp : p ∈ dynamic_cpu_request cfg cap rows) :
    cfg.MIN_CPU_CORE_PROPOSED_VALUE ≤ p.recommended_cpu_request := by
  unfold dynamic_cpu_request at hp
  dsimp only at hp
  refine dcrGo_cpu_floor cfg cap _ _ _ _ _ p ?_ hp
  intro c hc
  simp only [List.mem_map] at hc
  obtain ⟨pp, _, rfl⟩ := hc
  exact le_max_right _ _

lemma dynamic_min_replicas_cpu_floor {cfg : Config} {cap : ℚ}
    {rows : List TraceRow} {p : WorkloadPlan}
    (hp : p ∈ dynamic_min_replicas cfg cap rows) :
    cfg.MIN_CPU_CORE_PROPOSED_VALUE ≤ p.recommended_cpu_request := by
  unfold dynamic_min_replicas at hp
  dsimp only at hp
  split_ifs at hp with h1 h2
  · simp at hp
  · rcases List.mem_map.mp hp with ⟨k, _, rfl⟩
    exact le_max_right _ _
  · simp at hp

/-- C4 counterexample, falsifying both the `min_replicas ≤ max_replicas`
and the `cpu_request ≥ MIN_CPU_CORE_PROPOSED_VALUE` clauses: on
`[rowB, rowB]` the generator emits a DCR plan with max replicas 2 below
the floor of 3, and on `[rowA, rowA]` (zero usage, nonzero requests) the
emitted VPA plan's CPU request is 0. -/
theorem C4_counterexample :
    (∃ plans,
      get_simulation_plans defaultConfig 1 [rowB, rowB] = some plans ∧
      planDcrB ∈ plans ∧
      planDcrB.recommended_max_replicas <
        planDcrB.recommended_min_replicas) ∧
    (∃ plans,
      get_simulation_plans defaultConfig 1 [rowA, rowA] = some plans ∧
      vpa_recommendation defaultConfig [rowA, rowA] ∈ plans ∧
      (vpa_recommendation defaultConfig
          [rowA, rowA]).recommended_cpu_request <
        defaultConfig.MIN_CPU_CORE_PROPOSED_VALUE) := by
  constructor
  · exact ⟨_, rfl, by decide, by decide⟩
  · exact ⟨_, rfl, by decide, by decide⟩

/-- C4 (amended): every plan emitted by `get_simulation_plans` either is
the VPA fallback with `min_replicas = max_replicas`, or (DCR/DMR) has
`cpu_request ≥ MIN_CPU_CORE_PROPOSED_VALUE` and an HPA target inside
`[MIN_HPA_TARGET_CPU, MAX_HPA_TARGET_CPU]`; neither `min ≤ max` for
DCR/DMR plans nor the CPU floor and target bounds for the VPA plan are
guaranteed. -/
theorem C4_theorem (cfg : Config) (l : ℤ) (rows : List TraceRow)
    (plans : List WorkloadPlan) (p : WorkloadPlan)
    (h : get_simulation_plans cfg l rows = some plans) (hp : p ∈ plans) :
    p.recommended_min_replicas = p.recommended_max_replicas ∨
    (cfg.MIN_CPU_CORE_PROPOSED_VALUE ≤ p.recommended_cpu_request ∧
     cfg.MIN_HPA_TARGET_CPU ≤ p.recommended_hpa_target_cpu ∧
     p.recommended_hpa_target_cpu ≤ cfg.MAX_HPA_TARGET_CPU) := by
  unfold get_simulation_plans at h
  dsimp only at h
  split_ifs at h with h1 h2 h3
  · rw [Option.some_inj] at h; subst h; simp at hp
  · rw [Option.some_inj] at h; subst h; simp at hp
  · rw [Option.some_inj] at h; subst h; simp at hp
  · cases hs : calculate_max_usage_slope_up_ratio rows l with
    | none => rw [hs] at h; simp at h
    | some sloped =>
      rw [hs] at h
      dsimp only at h
      rw [Option.some_inj] at h
      subst h
      rcases List.mem_append.mp hp with hmem | hmem
      · right
        rw [List.mem_filterMap] at hmem
        obtain ⟨q, hq, hqc⟩ := hmem
        have hf := get_recommended_configs_fields hqc
        refine ⟨?_, hf.2.1, hf.2.2.1⟩
        rw [hf.1]
        dsimp only
        have hq' := mem_of_mem_dedupPlans (mem_sortLE.mp hq)
        rcases List.mem_append.mp hq' with hq'' | hq''
        · exact dynamic_cpu_request_cpu_floor hq''
        · exact dynamic_min_replicas_cpu_floor hq''
      · left
        have hpv : p = vpa_recommendation cfg rows := by simpa using hmem
        rw [hpv]
        rfl

/-- C4 witness: the amended theorem applied to the concrete DCR plan
emitted on `[rowB, rowB]`. -/
theorem C4_witness :
    planDcrB.recommended_min_replicas = planDcrB.recommended_max_replicas ∨
    (defaultConfig.MIN_CPU_CORE_PROPOSED_VALUE ≤
       planDcrB.recommended_cpu_request ∧
     defaultConfig.MIN_HPA_TARGET_CPU ≤
       planDcrB.recommended_hpa_target_cpu ∧
     planDcrB.recommended_hpa_target_cpu ≤
       defaultConfig.MAX_HPA_TARGET_CPU) :=
  C4_theorem defaultConfig 1 [rowB, rowB] _ planDcrB rfl (by decide)

/-- C8 witness: on the concrete trace `[rowB, rowB]` the returned plan
list contains the VPA fallback with equal minimum and maximum replicas. -/
theorem C8_witness : ∃ plans,
    get_simulation_plans defaultConfig 1 [rowB, rowB] = some plans ∧
    vpa_recommendation defaultConfig [rowB, rowB] ∈ plans ∧
    (vpa_recommendation defaultConfig
        [rowB, rowB]).recommended_min_replicas =
      (vpa_recommendation defaultConfig
        [rowB, rowB]).recommended_max_replicas :=
  ⟨_, rfl, C8_theorem defaultConfig 1 [rowB, rowB] _ (by decide)
    (by decide) (by decide) rfl⟩

/-- C6 witness: the analyzer errors out on the nonpositive startup-latency
row count −2. -/
theorem C6_witness :
    calculate_max_usage_slope_up_ratio [rowSlope] (-2) = none :=
  (C6_theorem [rowSlope] (-2)).1 (by decide)

/-! ### Simulator loop lemmas -/

lemma clipZ_nonneg {x lo hi : ℤ} (hlo : 0 ≤ lo) (hlohi : lo ≤ hi) :
    0 ≤ clipZ x lo hi := by
  unfold clipZ
  have h1 : lo ≤ max x lo := le_max_right _ _
  have h2 : (0 : ℤ) ≤ hi := hlo.trans hlohi
  exact le_min h2 (hlo.trans h1)

lemma stepReps_nonneg {cfg : Config} {plan : WorkloadPlan} {r0 : ℤ}
    {des : List ℤ} {i : ℕ} (hr0 : 0 ≤ r0)
    (hlo : 0 ≤ plan.recommended_min_replicas)
    (hlohi : plan.recommended_min_replicas ≤ plan.recommended_max_replicas) :
    0 ≤ stepReps cfg plan r0 des i := by
  unfold stepReps
  split_ifs
  · exact hr0
  · exact clipZ_nonneg hlo hlohi

/-- `countClashes` on matched cons cells. -/
lemma countClashes_cons (r : TraceRow) (rs : List TraceRow) (fc : ℚ)
    (fcs : List ℚ) :
    countClashes (r :: rs) (fc :: fcs) =
      (if fc < r.sum_containers_cpu_usage then 1 else 0) +
        countClashes rs fcs := rfl

/-- Every fact about a completed (non-bailing) run of the simulation loop
that the claims need: the output arrays extend the accumulator by one value
per trace row, forecast CPU and memory are `replicas · request`, no row
breaches memory, and the final clash counter counts exactly the CPU-clash
rows and stays within the threshold. -/
lemma simGo_sound (cfg : Config) (plan : WorkloadPlan) (r0 : ℤ) :
    ∀ (rows : List TraceRow) (acc out : SimAcc),
    simGo cfg plan r0 rows acc = some out →
    ∃ tR tD tF tM tT,
      out.reps = acc.reps ++ tR ∧ out.des = acc.des ++ tD ∧
      out.fcs = acc.fcs ++ tF ∧ out.fms = acc.fms ++ tM ∧
      out.mets = acc.mets ++ tT ∧
      List.Forall₂ (fun (r : ℤ) (fc : ℚ) =>
        fc = (r : ℚ) * plan.recommended_cpu_request) tR tF ∧
      List.Forall₂ (fun (r : ℤ) (fm : ℚ) =>
        fm = (r : ℚ) * plan.recommended_mem_request_and_limits_mi) tR tM ∧
      List.Forall₂ (fun (row : TraceRow) (fm : ℚ) =>
        row.sum_containers_mem_usage_mi ≤ fm) rows tM ∧
      ((0 ≤ r0 ∧ 0 ≤ plan.recommended_min_replicas ∧
        plan.recommended_min_replicas ≤ plan.recommended_max_replicas) →
        ∀ r ∈ tR, 0 ≤ r) ∧
      out.clashes = acc.clashes + countClashes rows tF ∧
      out.clashes ≤ max acc.clashes cfg.CPU_CLASH_COUNT_THRESHOLD := by
  intro rows
  induction rows with
  | nil =>
    intro acc out h
    simp only [simGo, Option.some_inj] at h
    subst h
    refine ⟨[], [], [], [], [], by simp, by simp, by simp, by simp, by simp,
      List.Forall₂.nil, List.Forall₂.nil, List.Forall₂.nil, ?_, ?_, ?_⟩
    · intro _ r hr; simp at hr
    · simp [countClashes]
    · exact le_max_left _ _
  | cons row rest ih =>
    intro acc out h
    rw [simGo] at h
    dsimp only at h
    by_cases hc : ((stepReps cfg plan r0 acc.des acc.reps.length : ℚ) *
        plan.recommended_cpu_request < row.sum_containers_cpu_usage)
    case pos =>
      rw [if_pos hc] at h
      by_cases hthr : acc.clashes + 1 > cfg.CPU_CLASH_COUNT_THRESHOLD
      case pos =>
        rw [if_pos (⟨hc, hthr⟩ :
          _ ∧ acc.clashes + 1 > cfg.CPU_CLASH_COUNT_THRESHOLD)] at h
        simp at h
      case neg =>
        rw [if_neg (fun hand => hthr hand.2)] at h
        by_cases hm : ((stepReps cfg plan r0 acc.des acc.reps.length : ℚ) *
            plan.recommended_mem_request_and_limits_mi <
          row.sum_containers_mem_usage_mi)
        case pos => rw [if_pos hm] at h; simp at h
        case neg =>
          rw [if_neg hm] at h
          obtain ⟨tR, tD, tF, tM, tT, h1, h2, h3, h4, h5, h6, h7, h8, h9,
            h10, h11⟩ := ih _ _ h
          dsimp only at h1 h2 h3 h4 h5 h10 h11
          refine ⟨stepReps cfg plan r0 acc.des acc.reps.length :: tR,
            stepDes plan r0 acc.reps.length
                (stepReps cfg plan r0 acc.des acc.reps.length)
                (stepMet plan row.sum_containers_cpu_usage
                  ((stepReps cfg plan r0 acc.des acc.reps.length : ℚ) *
                    plan.recommended_cpu_request)) :: tD,
            ((stepReps cfg plan r0 acc.des acc.reps.length : ℚ) *
              plan.recommended_cpu_request) :: tF,
            ((stepReps cfg plan r0 acc.des acc.reps.length : ℚ) *
              plan.recommended_mem_request_and_limits_mi) :: tM,
            stepMet plan row.sum_containers_cpu_usage
              ((stepReps cfg plan r0 acc.des acc.reps.length : ℚ) *
                plan.recommended_cpu_request) :: tT,
            ?_, ?_, ?_, ?_, ?_, ?_, ?_, ?_, ?_, ?_, ?_⟩
          · rw [h1]; simp
          · rw [h2]; simp
          · rw [h3]; simp
          · rw [h4]; simp
          · rw [h5]; simp
          · exact List.Forall₂.cons rfl h6
          · exact List.Forall₂.cons rfl h7
          · exact List.Forall₂.cons (not_lt.mp hm) h8
          · intro hnn r hr
            rcases List.mem_cons.mp hr with rfl | hr'
            · exact stepReps_nonneg hnn.1 hnn.2.1 hnn.2.2
            · exact h9 hnn r hr'
          · rw [countClashes_cons, if_pos hc]
            omega
          · refine h11.trans ?_
            have hle : acc.clashes + 1 ≤ cfg.CPU_CLASH_COUNT_THRESHOLD := by
              omega
            rw [max_eq_right hle]
            exact le_max_right _ _
    case neg =>
      rw [if_neg hc] at h
      rw [if_neg (fun hand => hc hand.1)] at h
      by_cases hm : ((stepReps cfg plan r0 acc.des acc.reps.length : ℚ) *
          plan.recommended_mem_request_and_limits_mi <
        row.sum_containers_mem_usage_mi)
      case pos => rw [if_pos hm] at h; simp at h
      case neg =>
        rw [if_neg hm] at h
        obtain ⟨tR, tD, tF, tM, tT, h1, h2, h3, h4, h5, h6, h7, h8, h9,
          h10, h11⟩ := ih _ _ h
        dsimp only at h1 h2 h3 h4 h5 h10 h11
        refine ⟨stepReps cfg plan r0 acc.des acc.reps.length :: tR,
          stepDes plan r0 acc.reps.length
              (stepReps cfg plan r0 acc.des acc.reps.length)
              (stepMet plan row.sum_containers_cpu_usage
                ((stepReps cfg plan r0 acc.des acc.reps.length : ℚ) *
                  plan.recommended_cpu_request)) :: tD,
          ((stepReps cfg plan r0 acc.des acc.reps.length : ℚ) *
            plan.recommended_cpu_request) :: tF,
          ((stepReps cfg plan r0 acc.des acc.reps.length : ℚ) *
            plan.recommended_mem_request_and_limits_mi) :: tM,
          stepMet plan row.sum_containers_cpu_usage
            ((stepReps cfg plan r0 acc.des acc.reps.length : ℚ) *
              plan.recommended_cpu_request) :: tT,
          ?_, ?_, ?_, ?_, ?_, ?_, ?_, ?_, ?_, ?_, ?_⟩
        · rw [h1]; simp
        · rw [h2]; simp
        · rw [h3]; simp
        · rw [h4]; simp
        · rw [h5]; simp
        · exact List.Forall₂.cons rfl h6
        · exact List.Forall₂.cons rfl h7
        · exact List.Forall₂.cons (not_lt.mp hm) h8
        · intro hnn r hr
          rcases List.mem_cons.mp hr with rfl | hr'
          · exact stepReps_nonneg hnn.1 hnn.2.1 hnn.2.2
          · exact h9 hnn r hr'
        · rw [countClashes_cons, if_neg hc]
          omega
        · exact h11

/-! ### C1 — clash soundness of completed simulations -/

/-- C1 counterexample: the VPA branch of `_simulate_behaviour` performs no
clash check at all, so a VPA plan's simulation completes (and the
recommendation keeps its validity flag) even though its forecast memory is
below the row's memory usage and the CPU-clash count exceeds the
threshold. -/
theorem C1_counterexample : ∃ out,
    simulate_behaviour defaultConfig planVPA1 [rowClash] 1 = some out ∧
    out.fms.getD 0 0 < rowClash.sum_containers_mem_usage_mi ∧
    defaultConfig.CPU_CLASH_COUNT_THRESHOLD <
      countClashes [rowClash] out.fcs ∧
    planVPA1.method = methodVPA :=
  ⟨_, rfl, by decide, by decide, by decide⟩

/-- C1 (amended): for every non-VPA plan whose simulation completes, every
trace row's forecast memory capacity (`replicas ·
recommended_mem_request_and_limits_mi`) is at least that row's
`sum_containers_mem_usage_mi`, and the number of rows whose forecast CPU
capacity is below `sum_containers_cpu_usage` is at most
`CPU_CLASH_COUNT_THRESHOLD`; the VPA branch performs no such checks. -/
theorem C1_theorem (cfg : Config) (plan : WorkloadPlan)
    (rows : List TraceRow) (starting_replica : ℤ) (out : SimAcc)
    (hm : plan.method ≠ methodVPA)
    (h : simulate_behaviour cfg plan rows starting_replica = some out) :
    List.Forall₂ (fun (row : TraceRow) (fm : ℚ) =>
      row.sum_containers_mem_usage_mi ≤ fm) rows out.fms ∧
    List.Forall₂ (fun (r : ℤ) (fm : ℚ) =>
      fm = (r : ℚ) * plan.recommended_mem_request_and_limits_mi)
      out.reps out.fms ∧
    countClashes rows out.fcs ≤ cfg.CPU_CLASH_COUNT_THRESHOLD := by
  rw [simulate_behaviour, if_neg hm] at h
  obtain ⟨tR, tD, tF, tM, tT, h1, h2, h3, h4, h5, h6, h7, h8, h9, h10,
    h11⟩ := simGo_sound cfg plan starting_replica rows _ out h
  dsimp only at h1 h2 h3 h4 h5 h10 h11
  rw [List.nil_append] at h1 h3 h4
  rw [h1, h3, h4]
  refine ⟨h8, h7, ?_⟩
  rw [Nat.max_eq_right (Nat.zero_le _)] at h11
  omega

/-- C1 witness: a completed non-VPA simulation on the concrete one-row
trace `[rowSim]`. -/
theorem C1_witness : ∃ out,
    simulate_behaviour defaultConfig planC9A [rowSim] 1 = some out ∧
    (List.Forall₂ (fun (row : TraceRow) (fm : ℚ) =>
      row.sum_containers_mem_usage_mi ≤ fm) [rowSim] out.fms ∧
    List.Forall₂ (fun (r : ℤ) (fm : ℚ) =>
      fm = (r : ℚ) * planC9A.recommended_mem_request_and_limits_mi)
      out.reps out.fms ∧
    countClashes [rowSim] out.fcs ≤
      defaultConfig.CPU_CLASH_COUNT_THRESHOLD) :=
  ⟨_, rfl, C1_theorem defaultConfig planC9A [rowSim] 1 _ (by decide) rfl⟩

/-! ### C2 — the replica recurrence -/

lemma getD_append_lt {α : Type} {l l' : List α} {k : ℕ} {d : α}
    (h : k < l.length) : (l ++ l').getD k d = l.getD k d := by
  simp [List.getD_eq_getElem?_getD, List.getElem?_append_left h]

lemma getD_append_len {α : Type} (l l' : List α) (d : α) :
    (l ++ l').getD l.length d = l'.getD 0 d := by
  simp [List.getD_eq_getElem?_getD,
    List.getElem?_append_right (le_refl l.length)]

/-- `stepReps` only reads `desired` indices below the current row, so it is
unchanged when the array is extended — provided the startup latency is at
least one row. -/
lemma stepReps_extend (cfg : Config) (plan : WorkloadPlan) (r0 : ℤ)
    (des ds : List ℤ) (k : ℕ)
    (hL : 1 ≤ plan.workload_e2e_startup_latency_rows)
    (hk : k ≤ des.length) :
    stepReps cfg plan r0 (des ++ ds) k = stepReps cfg plan r0 des k := by
  unfold stepReps
  by_cases hkL : (k : ℤ) < plan.workload_e2e_startup_latency_rows
  · rw [if_pos hkL, if_pos hkL]
  · rw [if_neg hkL, if_neg hkL]
    dsimp only
    have h0j : 0 ≤ (k : ℤ) - plan.workload_e2e_startup_latency_rows := by
      omega
    rw [if_pos h0j, if_pos h0j]
    have hjlt :
        ((k : ℤ) - plan.workload_e2e_startup_latency_rows).toNat <
          des.length := by omega
    rw [getD_append_lt hjlt]
    congr 1
    by_cases hsd : max 0 ((k : ℤ) -
          plan.workload_e2e_startup_latency_rows -
        (cfg.HPA_SCALE_DOWN_DEFAULT_BEHAVIOUR_STEPS : ℤ)) ≤ 0
    · rw [if_pos hsd, if_pos hsd]
    · rw [if_neg hsd, if_neg hsd]
      have hpos : 0 < (k : ℤ) - plan.workload_e2e_startup_latency_rows -
          (cfg.HPA_SCALE_DOWN_DEFAULT_BEHAVIOUR_STEPS : ℤ) := by
        by_contra hnp
        exact hsd (max_le (le_refl 0) (by omega))
      have hmax : max 0 ((k : ℤ) -
            plan.workload_e2e_startup_latency_rows -
          (cfg.HPA_SCALE_DOWN_DEFAULT_BEHAVIOUR_STEPS : ℤ)) =
          (k : ℤ) - plan.workload_e2e_startup_latency_rows -
            (cfg.HPA_SCALE_DOWN_DEFAULT_BEHAVIOUR_STEPS : ℤ) :=
        max_eq_right hpos.le
      rw [hmax]
      congr 2
      rw [List.drop_append_of_le_length (by omega)]
      rw [List.take_append_of_le_length (by simp [List.length_drop]; omega)]

/-- Completed runs of the simulation loop satisfy the replica recurrence:
each written `forecast_replicas[k]` equals `stepReps` read back over the
final `forecast_replicas_desired` array (startup latency ≥ 1 row). -/
lemma simGo_reps_spec (cfg : Config) (plan : WorkloadPlan) (r0 : ℤ)
    (hL : 1 ≤ plan.workload_e2e_startup_latency_rows) :
    ∀ (rows : List TraceRow) (acc out : SimAcc),
    simGo cfg plan r0 rows acc = some out →
    acc.des.length = acc.reps.length →
    (∀ k, k < acc.reps.length →
      acc.reps.getD k 0 = stepReps cfg plan r0 acc.des k) →
    (∀ k, k < out.reps.length →
      out.reps.getD k 0 = stepReps cfg plan r0 out.des k) := by
  intro rows
  induction rows with
  | nil =>
    intro acc out h hlen hinv
    simp only [simGo, Option.some_inj] at h
    subst h
    exact hinv
  | cons row rest ih =>
    intro acc out h hlen hinv
    rw [simGo] at h
    dsimp only at h
    split_ifs at h <;>
    · refine ih _ _ h (by simp [hlen]) ?_
      intro k hk
      dsimp only at hk ⊢
      rw [List.length_append, List.length_singleton] at hk
      rcases Nat.lt_succ_iff_lt_or_eq.mp hk with hk' | hk'
      · rw [getD_append_lt hk',
          stepReps_extend cfg plan r0 acc.des _ k hL (by omega)]
        exact hinv k hk'
      · subst hk'
        rw [getD_append_len,
          stepReps_extend cfg plan r0 acc.des _ acc.reps.length hL hlen.ge]
        rfl

/-- `stepReps` (transcribed from the source's `ℤ` index arithmetic) agrees
with the claim's `ℕ`-arithmetic replica formula once `L ≥ 1`. -/
lemma stepReps_eq_c2 (cfg : Config) (plan : WorkloadPlan) (r0 : ℤ)
    (des : List ℤ) (i : ℕ)
    (hL : 1 ≤ plan.workload_e2e_startup_latency_rows) :
    stepReps cfg plan r0 des i = c2_replica_formula cfg plan des r0 i := by
  unfold stepReps c2_replica_formula
  dsimp only
  by_cases hiL : (i : ℤ) < plan.workload_e2e_startup_latency_rows
  · rw [if_pos hiL, if_pos (show i <
      plan.workload_e2e_startup_latency_rows.toNat by omega)]
  · rw [if_neg hiL, if_neg (show ¬ i <
      plan.workload_e2e_startup_latency_rows.toNat by omega)]
    have h0j : 0 ≤ (i : ℤ) - plan.workload_e2e_startup_latency_rows := by
      omega
    rw [if_pos h0j]
    have hjt : ((i : ℤ) - plan.workload_e2e_startup_latency_rows).toNat =
        i - plan.workload_e2e_startup_latency_rows.toNat := by omega
    rw [hjt]
    congr 1
    by_cases hsd : max 0 ((i : ℤ) -
          plan.workload_e2e_startup_latency_rows -
        (cfg.HPA_SCALE_DOWN_DEFAULT_BEHAVIOUR_STEPS : ℤ)) ≤ 0
    · have hx : (i : ℤ) - plan.workload_e2e_startup_latency_rows -
          (cfg.HPA_SCALE_DOWN_DEFAULT_BEHAVIOUR_STEPS : ℤ) ≤ 0 :=
        le_trans (le_max_right _ _) hsd
      rw [if_pos hsd, if_pos (show i -
        plan.workload_e2e_startup_latency_rows.toNat -
          cfg.HPA_SCALE_DOWN_DEFAULT_BEHAVIOUR_STEPS = 0 by omega)]
    · have hx : 0 < (i : ℤ) - plan.workload_e2e_startup_latency_rows -
          (cfg.HPA_SCALE_DOWN_DEFAULT_BEHAVIOUR_STEPS : ℤ) := by
        by_contra hnp
        exact hsd (max_le (le_refl 0) (by omega))
      rw [if_neg hsd, if_neg (show ¬ (i -
        plan.workload_e2e_startup_latency_rows.toNat -
          cfg.HPA_SCALE_DOWN_DEFAULT_BEHAVIOUR_STEPS = 0) by omega)]
      rw [max_eq_right hx.le]
      have hAB : ((i : ℤ) - plan.workload_e2e_startup_latency_rows -
          (cfg.HPA_SCALE_DOWN_DEFAULT_BEHAVIOUR_STEPS : ℤ)).toNat =
          i - plan.workload_e2e_startup_latency_rows.toNat -
            cfg.HPA_SCALE_DOWN_DEFAULT_BEHAVIOUR_STEPS := by omega
      rw [hAB]

/-- C2: for non-VPA completed simulations with startup latency ≥ 1 row
(the recurrence is circular for L = 0), the starting replica count is
the claim's clipped ceiling over the first `L+1` rows, `replicas[i] = r0`
for `i < L`, and for `i ≥ L` the replicas follow the claim's
scale-up/scale-down recurrence over the desired-replica series. -/
theorem C2_theorem (cfg : Config) (plan : WorkloadPlan)
    (rows : List TraceRow) (out : SimAcc)
    (hm : plan.method ≠ methodVPA)
    (hL : 1 ≤ plan.workload_e2e_startup_latency_rows)
    (h : simulate_behaviour cfg plan rows
      (calculate_starting_replicas rows plan) = some out) :
    calculate_starting_replicas rows plan =
      c2_starting_replicas rows plan ∧
    (∀ i, i < rows.length →
      i < plan.workload_e2e_startup_latency_rows.toNat →
      out.reps.getD i 0 = calculate_starting_replicas rows plan) ∧
    (∀ i, i < rows.length →
      plan.workload_e2e_startup_latency_rows.toNat ≤ i →
      out.reps.getD i 0 = c2_replica_formula cfg plan out.des
        (calculate_starting_replicas rows plan) i) := by
  rw [simulate_behaviour, if_neg hm] at h
  have hlen : out.reps.length = rows.length := by
    obtain ⟨tR, tD, tF, tM, tT, h1, _, _, _, _, _, h7, h8, _, _, _⟩ :=
      simGo_sound cfg plan _ rows _ out h
    rw [h1]
    dsimp only
    rw [List.nil_append, h7.length_eq, ← h8.length_eq]
  have hspec := simGo_reps_spec cfg plan _ hL rows {} out h rfl
    (by intro k hk; exact absurd hk (by simp))
  refine ⟨rfl, ?_, ?_⟩
  · intro i hilen hiL
    rw [hspec i (by omega)]
    unfold stepReps
    rw [if_pos (show (i : ℤ) <
      plan.workload_e2e_startup_latency_rows by omega)]
  · intro i hilen hiL
    rw [hspec i (by omega), stepReps_eq_c2 cfg plan _ out.des i hL]

/-- C2 witness: the theorem applied to a completed three-row simulation of
`planC9A` (startup latency 1 row). -/
theorem C2_witness : ∃ out,
    simulate_behaviour defaultConfig planC9A rowsC2
      (calculate_starting_replicas rowsC2 planC9A) = some out ∧
    (calculate_starting_replicas rowsC2 planC9A =
      c2_starting_replicas rowsC2 planC9A ∧
    (∀ i, i < rowsC2.length →
      i < planC9A.workload_e2e_startup_latency_rows.toNat →
      out.reps.getD i 0 = calculate_starting_replicas rowsC2 planC9A) ∧
    (∀ i, i < rowsC2.length →
      planC9A.workload_e2e_startup_latency_rows.toNat ≤ i →
      out.reps.getD i 0 = c2_replica_formula defaultConfig planC9A out.des
        (calculate_starting_replicas rowsC2 planC9A) i)) :=
  ⟨_, rfl, C2_theorem defaultConfig planC9A rowsC2 _ (by decide) (by decide)
    rfl⟩

/-! ### C9 — savings monotonicity in the memory request -/

/-- The memory request feeds only the memory-breach check, never the
replica dynamics: two completed runs of plans differing only in
`recommended_mem_request_and_limits_mi` produce identical replica,
desired, forecast-CPU and metric arrays and clash counters. -/
lemma simGo_mem_congr (cfg : Config) (pA : WorkloadPlan) (mB : ℚ)
    (r0 : ℤ) :
    ∀ (rows : List TraceRow) (accA accB outA outB : SimAcc),
    accA.reps = accB.reps → accA.des = accB.des → accA.fcs = accB.fcs →
    accA.mets = accB.mets → accA.clashes = accB.clashes →
    simGo cfg pA r0 rows accA = some outA →
    simGo cfg { pA with recommended_mem_request_and_limits_mi := mB } r0
      rows accB = some outB →
    outA.reps = outB.reps ∧ outA.des = outB.des ∧ outA.fcs = outB.fcs ∧
    outA.mets = outB.mets ∧ outA.clashes = outB.clashes := by
  intro rows
  induction rows with
  | nil =>
    intro accA accB outA outB hr hd hf hm hc hA hB
    simp only [simGo, Option.some_inj] at hA hB
    subst hA
    subst hB
    exact ⟨hr, hd, hf, hm, hc⟩
  | cons row rest ih =>
    intro accA accB outA outB hr hd hf hm hc hA hB
    rw [simGo] at hA hB
    dsimp only at hA hB
    have eqReps : stepReps cfg
        { pA with recommended_mem_request_and_limits_mi := mB } r0 =
        stepReps cfg pA r0 := rfl
    have eqDes : stepDes
        { pA with recommended_mem_request_and_limits_mi := mB } r0 =
        stepDes pA r0 := rfl
    have eqMet : stepMet
        { pA with recommended_mem_request_and_limits_mi := mB } =
        stepMet pA := rfl
    rw [eqReps, eqDes, eqMet, ← hr, ← hd, ← hf, ← hm, ← hc] at hB
    by_cases hcl : ((stepReps cfg pA r0 accA.des accA.reps.length : ℚ) *
        pA.recommended_cpu_request < row.sum_containers_cpu_usage)
    case pos =>
      rw [if_pos hcl] at hA hB
      by_cases hthr : accA.clashes + 1 > cfg.CPU_CLASH_COUNT_THRESHOLD
      case pos =>
        rw [if_pos (⟨hcl, hthr⟩ :
          _ ∧ accA.clashes + 1 > cfg.CPU_CLASH_COUNT_THRESHOLD)] at hA
        simp at hA
      case neg =>
        rw [if_neg (fun hand => hthr hand.2)] at hA hB
        by_cases hmA : ((stepReps cfg pA r0 accA.des
              accA.reps.length : ℚ) *
            pA.recommended_mem_request_and_limits_mi <
          row.sum_containers_mem_usage_mi)
        case pos => rw [if_pos hmA] at hA; simp at hA
        case neg =>
          rw [if_neg hmA] at hA
          by_cases hmB : ((stepReps cfg pA r0 accA.des
                accA.reps.length : ℚ) * mB <
            row.sum_containers_mem_usage_mi)
          case pos => rw [if_pos hmB] at hB; simp at hB
          case neg =>
            rw [if_neg hmB] at hB
            refine ih _ _ outA outB ?_ ?_ ?_ ?_ ?_ hA hB <;> rfl
    case neg =>
      rw [if_neg hcl] at hA hB
      rw [if_neg (fun hand => hcl hand.1)] at hA hB
      by_cases hmA : ((stepReps cfg pA r0 accA.des accA.reps.length : ℚ) *
          pA.recommended_mem_request_and_limits_mi <
        row.sum_containers_mem_usage_mi)
      case pos => rw [if_pos hmA] at hA; simp at hA
      case neg =>
        rw [if_neg hmA] at hA
        by_cases hmB : ((stepReps cfg pA r0 accA.des
              accA.reps.length : ℚ) * mB <
          row.sum_containers_mem_usage_mi)
        case pos => rw [if_pos hmB] at hB; simp at hB
        case neg =>
          rw [if_neg hmB] at hB
          refine ih _ _ outA outB ?_ ?_ ?_ ?_ ?_ hA hB <;> rfl

lemma roundTo_mono (d : ℕ) {x y : ℚ} (h : x ≤ y) :
    roundTo d x ≤ roundTo d y := by
  unfold roundTo
  have h1 : round (x * 10 ^ d) ≤ round (y * 10 ^ d) := by
    rw [round_eq, round_eq]
    exact Int.floor_le_floor (add_le_add_right
      (mul_le_mul_of_nonneg_right h (by positivity)) _)
  have h2 : ((round (x * 10 ^ d) : ℤ) : ℚ) ≤ round (y * 10 ^ d) := by
    exact_mod_cast h1
  exact (div_le_div_iff_of_pos_right (by positivity)).mpr h2

lemma ceilQ_mono {x y : ℚ} (h : x ≤ y) : ceilQ x ≤ ceilQ y := by
  unfold ceilQ
  exact_mod_cast Int.ceil_le_ceil h

lemma avgSavingsList_le (cfg : Config)
    (hcost : 0 < cfg.COST_OF_GB_IN_CPUS) :
    ∀ (rows : List TraceRow) (fcs fmsA fmsB : List ℚ),
    List.Forall₂ (fun a b => b ≤ a) fmsA fmsB →
    List.Forall₂ (fun a b => a ≤ b)
      (avgSavingsList cfg rows fcs fmsA)
      (avgSavingsList cfg rows fcs fmsB) := by
  intro rows
  induction rows with
  | nil => intro fcs fmsA fmsB _; exact List.Forall₂.nil
  | cons r rs ih =>
    intro fcs fmsA fmsB hf
    cases fcs with
    | nil => exact List.Forall₂.nil
    | cons fc fcs' =>
      cases hf with
      | nil => exact List.Forall₂.nil
      | cons hab h' =>
        rw [avgSavingsList, avgSavingsList]
        refine List.Forall₂.cons ?_ (ih fcs' _ _ h')
        unfold round2
        refine roundTo_mono 2 (add_le_add_left ?_ _)
        refine (div_le_div_iff_of_pos_right hcost).mpr ?_
        refine (div_le_div_iff_of_pos_right (by norm_num)).mpr ?_
        exact ceilQ_mono (by linarith [hab])

lemma forall₂_le_sum {l1 l2 : List ℚ}
    (h : List.Forall₂ (fun a b => a ≤ b) l1 l2) : l1.sum ≤ l2.sum := by
  induction h with
  | nil => exact le_refl _
  | cons hab _ ih => simpa using add_le_add hab ih

lemma meanQ_le {l1 l2 : List ℚ}
    (h : List.Forall₂ (fun a b => a ≤ b) l1 l2) : meanQ l1 ≤ meanQ l2 := by
  unfold meanQ
  rw [h.length_eq]
  cases l2 with
  | nil =>
    cases h
    exact le_refl _
  | cons x xs =>
    refine (div_le_div_iff_of_pos_right ?_).mpr (forall₂_le_sum h)
    have hpos : 0 < (x :: xs).length := Nat.succ_pos _
    exact_mod_cast hpos

lemma forall₂_mul_le {memA memB : ℚ} (hmem : memB ≤ memA) :
    ∀ {tR : List ℤ} {tMA tMB : List ℚ},
    List.Forall₂ (fun (r : ℤ) fm => fm = (r : ℚ) * memA) tR tMA →
    List.Forall₂ (fun (r : ℤ) fm => fm = (r : ℚ) * memB) tR tMB →
    (∀ r ∈ tR, 0 ≤ r) →
    List.Forall₂ (fun a b => b ≤ a) tMA tMB := by
  intro tR tMA tMB hA hB hnn
  induction hA generalizing tMB with
  | nil => cases hB; exact List.Forall₂.nil
  | @cons r fm tR' tMA' hab h ih =>
    cases hB with
    | cons hab' h' =>
      refine List.Forall₂.cons ?_
        (ih h' fun r hr => hnn r (List.mem_cons_of_mem _ hr))
      rw [hab, hab']
      refine mul_le_mul_of_nonneg_left hmem ?_
      exact_mod_cast hnn r (List.mem_cons_self _ _)

lemma forall₂_map_const {α : Type} (rows : List α) {x y : ℚ} (h : y ≤ x) :
    List.Forall₂ (fun a b => b ≤ a) (rows.map fun _ => x)
      (rows.map fun _ => y) := by
  induction rows with
  | nil => exact List.Forall₂.nil
  | cons r rs ih => exact List.Forall₂.cons h ih

/-- C9 counterexample for the CPU half of the claim: `planC9B` is
`planC9A` with the lower CPU request 0.9, both simulate to valid scores on
`[rowSim]`, yet the lower-request plan scores 0.2 < 1 — the higher starting
replica count `⌈1/0.9⌉ = 2` provisions 1.8 cores against 1.0. -/
theorem C9_counterexample :
    planScore defaultConfig [rowSim] planC9A = some 1 ∧
    planScore defaultConfig [rowSim] planC9B = some (1/5) ∧
    planC9B = { planC9A with recommended_cpu_request := 9/10 } ∧
    planC9B.recommended_cpu_request < planC9A.recommended_cpu_request ∧
    (1/5 : ℚ) < 1 := by
  refine ⟨by decide, by decide, by decide, by decide, by decide⟩

/-- C9 (amended): for two plans identical except that one has a lower
memory request (with nonnegative minimum replicas and a positive
`COST_OF_GB_IN_CPUS`), if both plans score — i.e. both stay valid — the
lower-memory plan's mean `avg_saving_in_cpus` is at least the other's.
The analogous statement for a lower CPU request is false
(`C9_counterexample`). -/
theorem C9_theorem (cfg : Config) (rows : List TraceRow)
    (pA : WorkloadPlan) (mB sA sB : ℚ)
    (hmem : mB ≤ pA.recommended_mem_request_and_limits_mi)
    (hmin : 0 ≤ pA.recommended_min_replicas)
    (hcost : 0 < cfg.COST_OF_GB_IN_CPUS)
    (hA : planScore cfg rows pA = some sA)
    (hB : planScore cfg rows
      { pA with recommended_mem_request_and_limits_mi := mB } = some sB) :
    sA ≤ sB := by
  unfold planScore at hA hB
  have hval_eq : is_plan_valid cfg
      { pA with recommended_mem_request_and_limits_mi := mB } =
      is_plan_valid cfg pA := rfl
  rw [hval_eq] at hB
  by_cases hval : is_plan_valid cfg pA = false
  · rw [if_pos hval] at hA; simp at hA
  · rw [if_neg hval] at hA hB
    have hminmax : pA.recommended_min_replicas ≤
        pA.recommended_max_replicas := by
      by_contra hgt
      apply hval
      unfold is_plan_valid
      split_ifs with v1 v2 v3
      · rfl
      · rfl
      · rfl
      · exact absurd (not_le.mp hgt) v2
    have hsr : calculate_starting_replicas rows
        { pA with recommended_mem_request_and_limits_mi := mB } =
        calculate_starting_replicas rows pA := rfl
    rw [hsr] at hB
    have hr0 : 0 ≤ calculate_starting_replicas rows pA := by
      unfold calculate_starting_replicas
      exact clipZ_nonneg hmin hminmax
    unfold simulate_behaviour at hA hB
    have hmeq : ({ pA with recommended_mem_request_and_limits_mi := mB } :
        WorkloadPlan).method = pA.method := rfl
    rw [hmeq] at hB
    by_cases hvpa : pA.method = methodVPA
    · rw [if_pos hvpa] at hA hB
      dsimp only at hA hB
      by_cases hre : rows.isEmpty
      · rw [if_pos hre] at hA; simp at hA
      · rw [if_neg hre] at hA hB
        rw [Option.some_inj] at hA hB
        subst hA
        subst hB
        refine meanQ_le (avgSavingsList_le cfg hcost rows _ _ _ ?_)
        refine forall₂_map_const rows ?_
        refine mul_le_mul_of_nonneg_left hmem ?_
        have : (0 : ℤ) ≤ pA.recommended_max_replicas := hmin.trans hminmax
        exact_mod_cast this
    · rw [if_neg hvpa] at hA hB
      cases hsA : simGo cfg pA (calculate_starting_replicas rows pA)
          rows {} with
      | none => rw [hsA] at hA; simp at hA
      | some outA =>
        rw [hsA] at hA
        cases hsB : simGo cfg
            { pA with recommended_mem_request_and_limits_mi := mB }
            (calculate_starting_replicas rows pA) rows {} with
        | none => rw [hsB] at hB; simp at hB
        | some outB =>
          rw [hsB] at hB
          dsimp only at hA hB
          by_cases hre : rows.isEmpty
          · rw [if_pos hre] at hA; simp at hA
          · rw [if_neg hre] at hA hB
            rw [Option.some_inj] at hA hB
            subst hA
            subst hB
            obtain ⟨hr, hd, hf, hmets, hcl⟩ := simGo_mem_congr cfg pA mB
              (calculate_starting_replicas rows pA) rows {} {} outA outB
              rfl rfl rfl rfl rfl hsA hsB
            obtain ⟨tRA, tDA, tFA, tMA, tTA, e1A, e2A, e3A, e4A, e5A, h6A,
              h7A, h8A, h9A, h10A, h11A⟩ :=
              simGo_sound cfg pA (calculate_starting_replicas rows pA)
                rows _ outA hsA
            obtain ⟨tRB, tDB, tFB, tMB, tTB, e1B, e2B, e3B, e4B, e5B, h6B,
              h7B, h8B, h9B, h10B, h11B⟩ :=
              simGo_sound cfg
                { pA with recommended_mem_request_and_limits_mi := mB }
                (calculate_starting_replicas rows pA) rows _ outB hsB
            dsimp only at e1A e4A e1B e4B
            rw [List.nil_append] at e1A e4A e1B e4B
            rw [← hf]
            refine meanQ_le
              (avgSavingsList_le cfg hcost rows outA.fcs outA.fms outB.fms
                ?_)
            rw [e4A, e4B]
            rw [← e1A] at h7A
            dsimp only at h7B
            have hrr : tRB = outA.reps := by rw [hr, e1B]
            rw [hrr] at h7B
            refine forall₂_mul_le hmem h7A h7B ?_
            intro r hrm
            exact h9A ⟨hr0, hmin, hminmax⟩ r (e1A ▸ hrm)

/-- C9 witness: the amended theorem at `planC9MemA` (memory request 10)
against its lower-memory variant (memory request 5) on `[rowSim]`: both
score 1 and the inequality holds. -/
theorem C9_witness :
    planScore defaultConfig [rowSim] planC9MemA = some 1 ∧
    planScore defaultConfig [rowSim]
      { planC9MemA with recommended_mem_request_and_limits_mi := 5 } =
        some 1 ∧
    (1 : ℚ) ≤ 1 :=
  ⟨by decide, by decide,
    C9_theorem defaultConfig [rowSim] planC9MemA 5 1 1 (by decide)
      (by decide) (by decide) (by decide) (by decide)⟩

/-! ### C7: the savings scorer and the best-plan selector -/

/-- The per-row savings column computed by the code equals the claim's
per-row `avg_saving_in_cpus` formula. -/
lemma avgSavingsList_eq_c7 (cfg : Config) :
    ∀ (rows : List TraceRow) (fcs fms : List ℚ),
      avgSavingsList cfg rows fcs fms = c7_avg_list cfg rows fcs fms := by
  intro rows
  induction rows with
  | nil => intro fcs fms; cases fcs <;> cases fms <;> rfl
  | cons r rs ih =>
    intro fcs fms
    cases fcs with
    | nil => cases fms <;> rfl
    | cons fc fcs2 =>
      cases fms with
      | nil => rfl
      | cons fm fms2 =>
        rw [avgSavingsList, c7_avg_list, ih]
        rfl

/-- A scored plan is valid, simulates to completion on a nonempty frame,
and its score is the mean of the claim's per-row savings column. -/
lemma planScore_eq_formula (cfg : Config) (rows : List TraceRow)
    (p : WorkloadPlan) (s : ℚ) (h : planScore cfg rows p = some s) :
    ∃ out, simulate_behaviour cfg p rows
        (calculate_starting_replicas rows p) = some out ∧
      s = meanQ (c7_avg_list cfg rows out.fcs out.fms) := by
  unfold planScore at h
  by_cases hv : is_plan_valid cfg p = false
  · rw [if_pos hv] at h
    exact Option.noConfusion h
  · rw [if_neg hv] at h
    cases hs : simulate_behaviour cfg p rows
        (calculate_starting_replicas rows p) with
    | none =>
      rw [hs] at h
      dsimp only at h
      exact Option.noConfusion h
    | some out =>
      rw [hs] at h
      dsimp only at h
      by_cases he : rows.isEmpty
      · rw [if_pos he] at h
        exact Option.noConfusion h
      · rw [if_neg he] at h
        refine ⟨out, rfl, ?_⟩
        rw [← avgSavingsList_eq_c7]
        exact (Option.some_inj.mp h).symm

/-- The plan sort key is reflexive. -/
lemma planKeyLE_refl (p : WorkloadPlan) : planKeyLE p p = true := by
  unfold planKeyLE
  simp

/-- An unscored plan leaves the running best unchanged. -/
lemma selectStep_none (cfg : Config) (rows : List TraceRow)
    (best : Option (WorkloadPlan × ℚ)) (c : WorkloadPlan)
    (h : planScore cfg rows c = none) :
    selectStep cfg rows best c = best := by
  unfold selectStep
  rw [h]

/-- A plan scoring strictly above the running best replaces it. -/
lemma selectStep_some_gt (cfg : Config) (rows : List TraceRow)
    (bp : WorkloadPlan) (bs : ℚ) (c : WorkloadPlan) (u : ℚ)
    (h : planScore cfg rows c = some u) (hgt : u > bs) :
    selectStep cfg rows (some (bp, bs)) c = some (c, u) := by
  unfold selectStep
  rw [h]
  dsimp only
  rw [if_pos hgt]

/-- A plan not scoring strictly above the running best is discarded. -/
lemma selectStep_some_le (cfg : Config) (rows : List TraceRow)
    (bp : WorkloadPlan) (bs : ℚ) (c : WorkloadPlan) (u : ℚ)
    (h : planScore cfg rows c = some u) (hle : ¬ u > bs) :
    selectStep cfg rows (some (bp, bs)) c = some (bp, bs) := by
  unfold selectStep
  rw [h]
  dsimp only
  rw [if_neg hle]

/-- Invariant of the selector fold: starting from a scored plan `b` that
sorts before the remaining (pairwise sorted) plans, the fold returns a
scored plan whose score bounds every scored plan, with ties resolved
towards the key-least plan. -/
lemma selectFold_spec (cfg : Config) (rows : List TraceRow) :
    ∀ (rest : List WorkloadPlan) (b : WorkloadPlan) (s : ℚ),
      planScore cfg rows b = some s →
      (∀ q ∈ rest, planKeyLE b q = true) →
      List.Pairwise (fun a c => planKeyLE a c = true) rest →
      ∃ p t,
        List.foldl (selectStep cfg rows) (some (b, s)) rest = some (p, t) ∧
        planScore cfg rows p = some t ∧
        s ≤ t ∧
        (p = b ∨ p ∈ rest) ∧
        (t = s → p = b) ∧
        (∀ q, (q = b ∨ q ∈ rest) → ∀ u, planScore cfg rows q = some u →
          u ≤ t) ∧
        (∀ q, (q = b ∨ q ∈ rest) → planScore cfg rows q = some t →
          planKeyLE p q = true) := by
  intro rest
  induction rest with
  | nil =>
    intro b s hb _ _
    refine ⟨b, s, rfl, hb, le_refl s, Or.inl rfl, fun _ => rfl, ?_, ?_⟩
    · rintro q (rfl | hq) u hu
      · rw [hb] at hu
        exact le_of_eq (Option.some_inj.mp hu).symm
      · exact absurd hq (List.not_mem_nil q)
    · rintro q (rfl | hq) hu
      · exact planKeyLE_refl q
      · exact absurd hq (List.not_mem_nil q)
  | cons c tl ih =>
    intro b s hb hble hpw
    obtain ⟨hbc, hpw2⟩ := List.pairwise_cons.mp hpw
    have hble2 : ∀ q ∈ tl, planKeyLE b q = true :=
      fun q hq => hble q (List.mem_cons_of_mem c hq)
    rw [List.foldl_cons]
    cases hc : planScore cfg rows c with
    | none =>
      rw [selectStep_none cfg rows (some (b, s)) c hc]
      obtain ⟨p, t, h0, h1, h2, h3, h4, h5, h6⟩ := ih b s hb hble2 hpw2
      refine ⟨p, t, h0, h1, h2, ?_, h4, ?_, ?_⟩
      · rcases h3 with hh | hh
        · exact Or.inl hh
        · exact Or.inr (List.mem_cons_of_mem c hh)
      · rintro q (rfl | hq) u hu
        · exact h5 q (Or.inl rfl) u hu
        · rcases List.mem_cons.mp hq with rfl | hq2
          · rw [hc] at hu
            exact Option.noConfusion hu
          · exact h5 q (Or.inr hq2) u hu
      · rintro q (rfl | hq) hu
        · exact h6 q (Or.inl rfl) hu
        · rcases List.mem_cons.mp hq with rfl | hq2
          · rw [hc] at hu
            exact Option.noConfusion hu
          · exact h6 q (Or.inr hq2) hu
    | some u =>
      by_cases hgt : u > s
      · rw [selectStep_some_gt cfg rows b s c u hc hgt]
        obtain ⟨p, t, h0, h1, h2, h3, h4, h5, h6⟩ := ih c u hc hbc hpw2
        refine ⟨p, t, h0, h1, le_trans (le_of_lt hgt) h2, ?_, ?_, ?_, ?_⟩
        · rcases h3 with hh | hh
          · exact Or.inr (by rw [hh]; exact List.mem_cons_self c tl)
          · exact Or.inr (List.mem_cons_of_mem c hh)
        · intro ht
          have hlt : s < t := lt_of_lt_of_le hgt h2
          rw [ht] at hlt
          exact absurd hlt (lt_irrefl s)
        · rintro q (rfl | hq) u2 hu
          · rw [hb] at hu
            have hsu : s = u2 := Option.some_inj.mp hu
            have hle2 : s ≤ t := le_of_lt (lt_of_lt_of_le hgt h2)
            rw [hsu] at hle2
            exact hle2
          · rcases List.mem_cons.mp hq with rfl | hq2
            · exact h5 q (Or.inl rfl) u2 hu
            · exact h5 q (Or.inr hq2) u2 hu
        · rintro q (rfl | hq) hu
          · rw [hb] at hu
            have hst : s = t := Option.some_inj.mp hu
            have hlt : s < t := lt_of_lt_of_le hgt h2
            rw [hst] at hlt
            exact absurd hlt (lt_irrefl t)
          · rcases List.mem_cons.mp hq with rfl | hq2
            · exact h6 q (Or.inl rfl) hu
            · exact h6 q (Or.inr hq2) hu
      · rw [selectStep_some_le cfg rows b s c u hc hgt]
        obtain ⟨p, t, h0, h1, h2, h3, h4, h5, h6⟩ := ih b s hb hble2 hpw2
        have hus : u ≤ s := not_lt.mp hgt
        refine ⟨p, t, h0, h1, h2, ?_, h4, ?_, ?_⟩
        · rcases h3 with hh | hh
          · exact Or.inl hh
          · exact Or.inr (List.mem_cons_of_mem c hh)
        · rintro q (rfl | hq) u2 hu
          · exact h5 q (Or.inl rfl) u2 hu
          · rcases List.mem_cons.mp hq with rfl | hq2
            · rw [hc] at hu
              have huu : u = u2 := Option.some_inj.mp hu
              have hle2 : u ≤ t := le_trans hus h2
              rw [huu] at hle2
              exact hle2
            · exact h5 q (Or.inr hq2) u2 hu
        · rintro q (rfl | hq) hu
          · exact h6 q (Or.inl rfl) hu
          · rcases List.mem_cons.mp hq with rfl | hq2
            · rw [hc] at hu
              have hut : u = t := Option.some_inj.mp hu
              have hts : t ≤ s := by rw [← hut]; exact hus
              have hst : t = s := le_antisymm hts h2
              rw [h4 hst]
              exact hble q (List.mem_cons_self q tl)
            · exact h6 q (Or.inr hq2) hu

/-- C7: on a plan list sorted by the `(method, cpu_request, mem_request,
max_replicas)` key — the order `_get_unique_combinations` emits — the
selector of `_analyze_configuration_plans` returns `none` exactly when no
plan scores, and otherwise returns a scored plan whose score is the mean
over the trace of the claim's per-row `avg_saving_in_cpus` (the CPU-request
saving plus the memory saving in GiB divided by `COST_OF_GB_IN_CPUS`,
rounded to 2 decimals), maximal among the scores of all plans, ties broken
towards the lexicographically least plan. -/
theorem C7_theorem (cfg : Config) (rows : List TraceRow)
    (plans : List WorkloadPlan)
    (hsort : List.Pairwise (fun a c => planKeyLE a c = true) plans) :
    (selectBest cfg rows plans = none →
      ∀ q ∈ plans, planScore cfg rows q = none) ∧
    (∀ p s, selectBest cfg rows plans = some (p, s) →
      p ∈ plans ∧
      planScore cfg rows p = some s ∧
      (∃ out, simulate_behaviour cfg p rows
          (calculate_starting_replicas rows p) = some out ∧
        s = meanQ (c7_avg_list cfg rows out.fcs out.fms)) ∧
      (∀ q ∈ plans, ∀ u, planScore cfg rows q = some u → u ≤ s) ∧
      (∀ q ∈ plans, planScore cfg rows q = some s →
        planKeyLE p q = true)) := by
  induction plans with
  | nil =>
    refine ⟨fun _ q hq => absurd hq (List.not_mem_nil q), fun p s h => ?_⟩
    exact Option.noConfusion h
  | cons c tl ih =>
    obtain ⟨hbc, hpw2⟩ := List.pairwise_cons.mp hsort
    have hsel : selectBest cfg rows (c :: tl) =
        List.foldl (selectStep cfg rows) (selectStep cfg rows none c) tl :=
      rfl
    cases hc : planScore cfg rows c with
    | none =>
      have hstep : selectStep cfg rows none c = none :=
        selectStep_none cfg rows none c hc
      have hrec : selectBest cfg rows (c :: tl) = selectBest cfg rows tl := by
        rw [hsel, hstep]
        rfl
      obtain ⟨ihn, ihs⟩ := ih hpw2
      constructor
      · intro hnone q hq
        rcases List.mem_cons.mp hq with rfl | hq2
        · exact hc
        · exact ihn (by rw [← hrec]; exact hnone) q hq2
      · intro p s h
        rw [hrec] at h
        obtain ⟨m1, m2, m3, m4, m5⟩ := ihs p s h
        refine ⟨List.mem_cons_of_mem c m1, m2, m3, ?_, ?_⟩
        · intro q hq u hu
          rcases List.mem_cons.mp hq with rfl | hq2
          · rw [hc] at hu
            exact Option.noConfusion hu
          · exact m4 q hq2 u hu
        · intro q hq hu
          rcases List.mem_cons.mp hq with rfl | hq2
          · rw [hc] at hu
            exact Option.noConfusion hu
          · exact m5 q hq2 hu
    | some u =>
      have hstep : selectStep cfg rows none c = some (c, u) := by
        unfold selectStep
        rw [hc]
      obtain ⟨p, t, h0, h1, h2, h3, h4, h5, h6⟩ :=
        selectFold_spec cfg rows tl c u hc hbc hpw2
      have hsel2 : selectBest cfg rows (c :: tl) = some (p, t) := by
        rw [hsel, hstep]
        exact h0
      constructor
      · intro hnone
        rw [hnone] at hsel2
        exact Option.noConfusion hsel2
      · intro p2 s2 h
        rw [hsel2] at h
        have hpq : (p, t) = (p2, s2) := Option.some_inj.mp h
        have hp : p = p2 := congrArg Prod.fst hpq
        have hs : t = s2 := congrArg Prod.snd hpq
        subst hp
        subst hs
        refine ⟨?_, h1, planScore_eq_formula cfg rows p t h1, ?_, ?_⟩
        · rcases h3 with hh | hh
          · rw [hh]
            exact List.mem_cons_self c tl
          · exact List.mem_cons_of_mem c hh
        · intro q hq u2 hu
          rcases List.mem_cons.mp hq with rfl | hq2
          · exact h5 q (Or.inl rfl) u2 hu
          · exact h5 q (Or.inr hq2) u2 hu
        · intro q hq hu
          rcases List.mem_cons.mp hq with rfl | hq2
          · exact h6 q (Or.inl rfl) hu
          · exact h6 q (Or.inr hq2) hu

/-- C7 witness: the selector theorem at the singleton plan list `[planC9A]`
on the one-row trace `[rowSim]`, where the plan scores 1 and is selected. -/
theorem C7_witness :
    planC9A ∈ [planC9A] ∧
    planScore defaultConfig [rowSim] planC9A = some 1 ∧
    (∀ q ∈ [planC9A], ∀ u,
      planScore defaultConfig [rowSim] q = some u → u ≤ 1) := by
  have h := (C7_theorem defaultConfig [rowSim] [planC9A]
      (List.pairwise_singleton _ _)).2 planC9A 1 (by rfl)
  exact ⟨h.1, h.2.1, h.2.2.2.1⟩

end HpaRec
